import Mathlib

/-!
# Timetable Slot Allocator & Validator — verification development

Shallow embedding of the timetable builder logic of the remedial-system
repository (`lessons/views.py`, `lessons/models.py`), together with proofs
about it.

Modelling conventions:
* Database ids (`Subject`, `Teacher`, `ClassGroup` primary keys) are `Nat`.
* Times of day are minutes since midnight (`08:00` is `480`), days are the
  three-letter day codes used by the source (`"Mon"`, …).
* The persisted `Timetable` table is a `List Row` in creation order; the ORM
  querysets read back in insertion order.
* A POST cell value (`request.POST.get(field_name, "").strip()` followed by
  `split("-", 1)` and `int(...)` on both halves) is modelled by its outcome:
  empty, malformed, or a parsed `(subject_id, teacher_id)` pair.
* The distinct user-facing error message strings of the views are modelled by
  the error codes of `SaveErr`.
-/

set_option autoImplicit false

namespace RemedialSystem

/-- A persisted `Timetable` row (`lessons/models.py`, class `Timetable`):
nullable `subject_fk_id`, `teacher_id`, day code, start and end time and the
`class_groups` many-to-many set. -/
structure Row where
  subj : Option Nat
  teacher : Nat
  day : String
  st : Nat
  et : Nat
  cgs : List Nat
  deriving DecidableEq, Repr

/-- The persisted `Timetable` table, rows in creation order. -/
abbrev DB := List Row

/-- `_fixed_timetable_structure` days: Mon–Fri. -/
def timetableDays : List String := ["Mon", "Tue", "Wed", "Thu", "Fri"]

/-- `_fixed_timetable_structure` slots: the nine 40-minute lessons
08:00–16:20, in minutes since midnight. -/
def timetableSlots : List (Nat × Nat) :=
  [(480, 520), (520, 560), (580, 620), (620, 660), (670, 710), (710, 750),
   (860, 900), (900, 940), (940, 980)]

/-- `_fixed_remedial_structure` days: Mon–Sat. -/
def remedialDays : List String := ["Mon", "Tue", "Wed", "Thu", "Fri", "Sat"]

/-- `_fixed_remedial_structure` slots: two evening and one lunchtime slot
plus three Saturday-morning hours, in minutes since midnight. -/
def remedialSlots : List (Nat × Nat) :=
  [(990, 1050), (1140, 1200), (810, 860), (420, 480), (480, 540), (540, 600)]

/-- Outcome of reading one timetable-builder cell from the POST data:
the field is absent/blank, present but not parseable as
`"{subject_id}-{teacher_id}"`, or parses to a subject/teacher id pair. -/
inductive CellVal where
  | empty
  | malformed
  | pair (subj teacher : Nat)
  deriving DecidableEq, Repr

/-- The components of a synthesized cell field name
`cell_{class_group_id}_{day}_{HHMM_start}_{HHMM_end}_{sub_index}`. -/
structure CellKey where
  cg : Nat
  day : String
  st : Nat
  et : Nat
  idx : Nat
  deriving DecidableEq, Repr

/-- A submitted grid: one `CellVal` per cell field name. -/
abbrev Submission := CellKey → CellVal

/-- One parsed intended assignment: class group `cg` is given subject
`subj` with teacher `teacher` at `(day, st, et)`.  These six fields are
exactly the components of the `created_keys` dedup key of the save loop. -/
structure Assign where
  cg : Nat
  day : String
  st : Nat
  et : Nat
  subj : Nat
  teacher : Nat
  deriving DecidableEq, Repr

/-- The three cell field names of one visual cell (`for idx in (1, 2, 3)`). -/
def cellKeysSlot (cg : Nat) (day : String) (s : Nat × Nat) : List CellKey :=
  [1, 2, 3].map fun i => ⟨cg, day, s.1, s.2, i⟩

/-- The cell field names of one class group and day (`for (st, et) in
slots`). -/
def cellKeysDay (cg : Nat) (day : String) (slots : List (Nat × Nat)) :
    List CellKey :=
  slots.flatMap (cellKeysSlot cg day)

/-- The cell field names of one class group (`for day in days`). -/
def cellKeysCg (cg : Nat) (days : List String) (slots : List (Nat × Nat)) :
    List CellKey :=
  days.flatMap fun day => cellKeysDay cg day slots

/-- The cell field names read by the builder loops, in source iteration
order: `for cg in class_groups: for day in days: for (st, et) in slots:
for idx in (1, 2, 3)`. -/
def cellKeys (selected : List Nat) (days : List String) (slots : List (Nat × Nat)) :
    List CellKey :=
  selected.flatMap fun cg => cellKeysCg cg days slots

/-- Parse one submitted cell into an intended assignment: `continue` on a
blank or malformed value, otherwise the subject/teacher pair with the
cell's own class group, day and times. -/
def parseCellFn (sub : Submission) (k : CellKey) : Option Assign :=
  match sub k with
  | .pair s t => some ⟨k.cg, k.day, k.st, k.et, s, t⟩
  | _ => none

/-- All successfully parsed assignments of a submission, in iteration
order (empty and malformed cells are skipped by `continue`). -/
def parsedCells (sub : Submission) (selected : List Nat) (days : List String)
    (slots : List (Nat × Nat)) : List Assign :=
  (cellKeys selected days slots).filterMap (parseCellFn sub)

/-- Whether some present cell fails to parse (`except (ValueError, TypeError)`
setting `error_message = "Invalid subject/teacher selection received."`). -/
def hasParseError (sub : Submission) (selected : List Nat) (days : List String)
    (slots : List (Nat × Nat)) : Bool :=
  (cellKeys selected days slots).any fun k =>
    match sub k with
    | .malformed => true
    | _ => false

/-- The `block_subjects` grouping key `(teacher_id, day, start, end)`. -/
def tkey (a : Assign) : Nat × String × Nat × Nat := (a.teacher, a.day, a.st, a.et)

/-- `block_subjects` check: some teacher/day/start/end slot collects more
than one subject id across all class groups and sub-indices. -/
def subjectClash (asg : List Assign) : Bool :=
  asg.any fun a => asg.any fun b => decide (tkey a = tkey b ∧ a.subj ≠ b.subj)

/-- `block_classes[(teacher, day, st, et, subject)]`: the distinct class-group
ids assigned to the logical block of assignment `a` in the submission. -/
def blockClasses (asg : List Assign) (a : Assign) : List Nat :=
  ((asg.filter fun b =>
      decide (b.teacher = a.teacher ∧ b.day = a.day ∧ b.st = a.st ∧
        b.et = a.et ∧ b.subj = a.subj)).map Assign.cg).dedup

/-- The active joint-lesson configuration read from the database:
subject ids of active `JointSubject` rows, and the active
`JointClassGroupSet` rows as (name, member class-group ids) in queryset
order. -/
structure JointConfig where
  jointSubjects : List Nat
  jointSets : List (String × List Nat)

/-- The `class_to_tag` map: iterate the active sets and record
`class_to_tag[cid] = group_set.name`, a later set overriding an earlier
one for a shared class group. -/
def classToTag (cfg : JointConfig) (cid : Nat) : Option String :=
  cfg.jointSets.foldl (fun m s => if cid ∈ s.2 then some s.1 else m) none

/-- The joint-set tag test of a multi-class block: the set
`tags = {class_to_tag.get(cid) for cid in class_ids}` must have exactly one
element and not contain `None`. -/
def tagsOk (cfg : JointConfig) (cls : List Nat) : Bool :=
  decide ((cls.map (classToTag cfg)).dedup.length = 1 ∧
    ¬ (none ∈ (cls.map (classToTag cfg)).dedup))

/-- The distinct validation error messages of the builder views, as codes:
`parse` = "Invalid subject/teacher selection received.",
`clash` = "A teacher cannot be assigned different subjects in the same …",
`jointSubject` = "… unless the subject is configured as a joint subject.",
`jointTags` = "These classes are not configured as a single joint class
group …", `unknownAction` = "Unknown action; … was not saved.". -/
inductive SaveErr where
  | parse
  | clash
  | jointSubject
  | jointTags
  | unknownAction
  deriving DecidableEq, Repr

/-- Per-block joint validation: a block spanning more than one class group
must use an active joint subject, and all its class groups must map to one
and the same active joint-set tag. -/
def blockViolation (cfg : JointConfig) (asg : List Assign) (a : Assign) :
    Option SaveErr :=
  if (blockClasses asg a).length ≤ 1 then none
  else if a.subj ∉ cfg.jointSubjects then some .jointSubject
  else if tagsOk cfg (blockClasses asg a) then none
  else some .jointTags

/-- The whole pre-save validation of the builder views: parse errors first,
then the one-subject-per-teacher-slot check over `block_subjects`, then the
joint checks over `block_classes` in first-occurrence order. -/
def validateSave (cfg : JointConfig) (sub : Submission) (selected : List Nat)
    (days : List String) (slots : List (Nat × Nat)) : Option SaveErr :=
  if hasParseError sub selected days slots then some .parse
  else if subjectClash (parsedCells sub selected days slots) then some .clash
  else (parsedCells sub selected days slots).findSome?
    (blockViolation cfg (parsedCells sub selected days slots))

/-- `created_keys` deduplication of the recreate loop: keep the first
occurrence of each assignment (the dedup key is the whole `Assign`). -/
def dedupKeepFirst : List Assign → List Assign → List Assign
  | [], _ => []
  | a :: rest, seen =>
      if a ∈ seen then dedupKeepFirst rest seen
      else a :: dedupKeepFirst rest (a :: seen)

/-- `Timetable.objects.create(...)` followed by `tt.class_groups.add(cg)`:
one row per created assignment, attached to exactly the one class group of
the cell it came from. -/
def mkRow (a : Assign) : Row :=
  ⟨some a.subj, a.teacher, a.day, a.st, a.et, [a.cg]⟩

/-- The rows created by an accepted save, in creation order. -/
def buildRows (asg : List Assign) : List Row :=
  (dedupKeepFirst asg []).map mkRow

/-- The delete/render scope filter of the builder views:
`Timetable.objects.filter(class_groups=cg, day__in=days,
start_time__in=starts)` unioned over the selected class groups. -/
def inScopeOfSelected (selected : List Nat) (days : List String)
    (starts : List Nat) (r : Row) : Bool :=
  (r.cgs.any fun c => decide (c ∈ selected)) && decide (r.day ∈ days) &&
    decide (r.st ∈ starts)

/-- The save action of both builder views: validate, and on success delete
every persisted row of the selected class groups inside the fixed structure
and recreate rows from the submitted cells; on failure leave the table
untouched and surface the error. -/
def doSave (cfg : JointConfig) (sub : Submission) (selected : List Nat)
    (days : List String) (slots : List (Nat × Nat)) (db : DB) :
    DB × Option SaveErr :=
  match validateSave cfg sub selected days slots with
  | some e => (db, some e)
  | none =>
      ((db.filter fun r =>
          !(inScopeOfSelected selected days (slots.map Prod.fst) r)) ++
        buildRows (parsedCells sub selected days slots), none)

/-- One entry of the POSTed `selected_classes` list: blank (falsy, filtered
by `if cid`), non-blank but not an integer (raises `ValueError`), or an
integer id. -/
inductive SelId where
  | blank
  | bad
  | ok (n : Nat)
  deriving DecidableEq, Repr

/-- `[int(cid) for cid in selected_ids if cid]` under
`try/except ValueError`: one unparseable non-blank entry empties the whole
selection. -/
def parseSelected (l : List SelId) : List Nat :=
  if l.any fun c => match c with | .bad => true | _ => false then []
  else l.filterMap fun c => match c with | .ok n => some n | _ => none

/-- The POSTed `action` field: `save`, `clear`, or anything else. -/
inductive BAction where
  | save
  | clear
  | other
  deriving DecidableEq, Repr

/-- The POST branch of the `timetable_builder` view (Mon–Fri structure):
nothing at all happens unless some classes are selected; `clear` deletes the
selected classes' rows in scope, `save` runs `doSave`, and any other action
only produces the unknown-action message. Returns the new table and the
`error_message` of the render context. -/
def timetable_builder (db : DB) (rawIds : List SelId) (action : BAction)
    (sub : Submission) (cfg : JointConfig) : DB × Option SaveErr :=
  let selected := parseSelected rawIds
  if selected = [] then (db, none)
  else
    match action with
    | .clear =>
        ((db.filter fun r =>
            !(inScopeOfSelected selected timetableDays
               (timetableSlots.map Prod.fst) r)), none)
    | .save => doSave cfg sub selected timetableDays timetableSlots db
    | .other => (db, some .unknownAction)

/-- The POST branch of the `remedial_timetable_builder` view (Mon–Sat
remedial structure): only `save` is supported; any other action yields the
unknown-action message. -/
def remedial_timetable_builder (db : DB) (rawIds : List SelId)
    (action : BAction) (sub : Submission) (cfg : JointConfig) :
    DB × Option SaveErr :=
  let selected := parseSelected rawIds
  if selected = [] then (db, none)
  else
    match action with
    | .save => doSave cfg sub selected remedialDays remedialSlots db
    | _ => (db, some .unknownAction)

/-! ## Read side: rebuilding the `current` cell map from persisted rows -/

/-- The base `"{cg.id}_{day}_{HHMM_start}_{HHMM_end}"` of a cell field name. -/
structure BaseKey where
  cg : Nat
  day : String
  st : Nat
  et : Nat
  deriving DecidableEq, Repr

/-- Attach a sub-index to a base key. -/
def cellOf (b : BaseKey) (i : Nat) : CellKey :=
  ⟨b.cg, b.day, b.st, b.et, i⟩

/-- Drop the sub-index of a cell key. -/
def baseOf (k : CellKey) : BaseKey :=
  ⟨k.cg, k.day, k.st, k.et⟩

/-- The contribution of one row to the `current` map: skipped when the
subject is missing or an id is falsy (`if not subj_id or not teacher_id:
continue`), otherwise one `(base, "{subj_id}-{teacher_id}")` entry per
selected class group attached to the row.  The value string is modelled by
the id pair it displays. -/
def rowContrib (selected : List Nat) (r : Row) : List (BaseKey × (Nat × Nat)) :=
  match r.subj with
  | none => []
  | some s =>
      if s = 0 || r.teacher = 0 then []
      else (r.cgs.filter fun c => decide (c ∈ selected)).map
        fun c => (⟨c, r.day, r.st, r.et⟩, (s, r.teacher))

/-- All `(base, value)` contributions of the queryset
`Timetable.objects.filter(class_groups__in=class_groups, day__in=days,
start_time__in=starts)`, rows visited in creation order. -/
def renderContribs (db : DB) (selected : List Nat) (days : List String)
    (starts : List Nat) : List (BaseKey × (Nat × Nat)) :=
  (db.filter (inScopeOfSelected selected days starts)).flatMap
    (rowContrib selected)

/-- Dictionary lookup in the `current` map (modelled as an association
list in insertion order). -/
def lookupCur (cur : List (CellKey × (Nat × Nat))) (k : CellKey) :
    Option (Nat × Nat) :=
  (cur.find? fun e => decide (e.1 = k)).map Prod.snd

/-- Place one contribution into the first free sub-index 1..3 of its base
(`for idx in (1, 2, 3): if key not in current: current[key] = value`);
if all three are used the contribution is ignored. -/
def placeContrib (cur : List (CellKey × (Nat × Nat)))
    (e : BaseKey × (Nat × Nat)) : List (CellKey × (Nat × Nat)) :=
  match [1, 2, 3].find? fun i => (lookupCur cur (cellOf e.1 i)).isNone with
  | some i => cur ++ [(cellOf e.1 i, e.2)]
  | none => cur

/-- The `current` cell-key-to-value map the builder views rebuild from the
persisted rows to pre-populate the next render. -/
def buildCurrent (db : DB) (selected : List Nat) (days : List String)
    (starts : List Nat) : List (CellKey × (Nat × Nat)) :=
  (renderContribs db selected days starts).foldl placeContrib []

/-! ## The save as a sequence of autocommitted database operations -/

/-- One primitive ORM write of the accepted-save path: a bulk
`.filter(class_groups=cg, day__in=days, start_time__in=starts).delete()`
for one selected class group, or one `Timetable.objects.create` (with its
`class_groups.add`).  The source wraps these in no transaction, so each
commits on its own. -/
inductive DbOp where
  | del (cg : Nat)
  | create (r : Row)
  deriving DecidableEq, Repr

/-- Effect of one primitive operation on the table. -/
def applyOp (days : List String) (starts : List Nat) (db : DB) : DbOp → DB
  | .del cg =>
      db.filter fun r =>
        !(decide (cg ∈ r.cgs) && decide (r.day ∈ days) && decide (r.st ∈ starts))
  | .create r => db ++ [r]

/-- The operation sequence an accepted save issues: all per-class deletes
first, then the row creations in iteration order. -/
def saveOps (sub : Submission) (selected : List Nat)
    (days : List String) (slots : List (Nat × Nat)) : List DbOp :=
  (selected.map DbOp.del) ++
    ((buildRows (parsedCells sub selected days slots)).map DbOp.create)

/-- Execute an initial segment of the operation sequence (what has been
committed when a later operation fails). -/
def execOps (days : List String) (starts : List Nat) (db : DB)
    (ops : List DbOp) : DB :=
  ops.foldl (applyOp days starts) db

/-! ## Reachable persisted states and the teacher-slot invariant -/

/-- Persisted states reachable from an empty table by any sequence of
builder POSTs (normal or remedial, any action, any selection). -/
inductive Reach : DB → Prop where
  | init : Reach []
  | normalStep (db : DB) (rawIds : List SelId) (action : BAction)
      (sub : Submission) (cfg : JointConfig) : Reach db →
      Reach (timetable_builder db rawIds action sub cfg).1
  | remedialStep (db : DB) (rawIds : List SelId) (action : BAction)
      (sub : Submission) (cfg : JointConfig) : Reach db →
      Reach (remedial_timetable_builder db rawIds action sub cfg).1

/-- The spec invariant: a `(teacher, day, start, end)` combination maps to
at most one subject across all persisted rows. -/
def teacherSlotInv (db : DB) : Prop :=
  ∀ r1 ∈ db, ∀ r2 ∈ db,
    r1.teacher = r2.teacher → r1.day = r2.day → r1.st = r2.st →
      r1.et = r2.et → r1.subj = r2.subj

/-! ## Read-side logical-lesson collapser (`remedial_stats`,
`deputy_normal_stats`) -/

/-- Python's `x or default` on an optional string: `None` and `""` both
fall back to the default. -/
def orDefault (v : Option String) (d : String) : String :=
  match v with
  | none => d
  | some s => if s = "" then d else s

/-- Python's `str.strip()`: drop leading and trailing whitespace. -/
def stripStr (s : String) : String :=
  ⟨((s.data.dropWhile Char.isWhitespace).reverse.dropWhile
      Char.isWhitespace).reverse⟩

/-- ASCII lowercasing of one character (`str.lower()` on the ASCII status
strings the models store). -/
def lowerChar (c : Char) : Char :=
  if 65 ≤ c.toNat ∧ c.toNat ≤ 90 then Char.ofNat (c.toNat + 32) else c

/-- Python's `str.lower()`. -/
def lowerStr (s : String) : String :=
  ⟨s.data.map lowerChar⟩

/-- `status_rank` of `remedial_stats`: Attended > Not Attended > Pending,
on the stripped, lowercased value. -/
def status_rank (val : String) : Nat :=
  let v := lowerStr (stripStr val)
  if v = "attended" then 3
  else if v = "not attended" then 2
  else if v = "pending" then 1
  else 0

/-- `payment_rank` of `remedial_stats`: Paid > Unpaid > anything else. -/
def payment_rank (val : String) : Nat :=
  let v := lowerStr (stripStr val)
  if v = "paid" then 2
  else if v = "unpaid" then 1
  else 0

/-- One step of the attendance merge of `remedial_stats`:
`new_status = (rec.status or "Pending").strip()`, replacing the aggregate
when it is `None` or strictly lower-ranked. -/
def statusStep (agg : Option String) (rec : Option String) : Option String :=
  let new := stripStr (orDefault rec "Pending")
  match agg with
  | none => some new
  | some s => if status_rank new > status_rank s then some new else some s

/-- The merged attendance status of one logical lesson in
`remedial_stats`, over its rows in visit order. -/
def mergeStatus (rows : List (Option String)) : Option String :=
  rows.foldl statusStep none

/-- One step of the payment merge of `remedial_stats`: blank values are
skipped, otherwise the higher `payment_rank` wins. -/
def paymentStep (agg : Option String) (rec : Option String) : Option String :=
  let newPay := stripStr (orDefault rec "")
  if newPay = "" then agg
  else
    match agg with
    | none => some newPay
    | some s => if payment_rank newPay > payment_rank s then some newPay else some s

/-- The merged payment status of one logical lesson in `remedial_stats`. -/
def mergePayment (rows : List (Option String)) : Option String :=
  rows.foldl paymentStep none

/-- The status merge of `deputy_normal_stats`:
`logical_map[key] = att.status or "Pending"` — every row overwrites the
aggregate, so the last visited row wins. -/
def deputyStatus (rows : List (Option String)) : Option String :=
  rows.foldl (fun _ rec => some (orDefault rec "Pending")) none

/-! ## Validation conditions, stated propositionally -/

/-- No teacher/day/start/end slot is given two different subject ids by
the submitted batch. -/
@[reducible] def NoClash (asg : List Assign) : Prop :=
  ∀ a ∈ asg, ∀ b ∈ asg, tkey a = tkey b → a.subj = b.subj

/-- Every block spanning more than one class group uses an active joint
subject and all its class groups carry one and the same active joint-set
tag. -/
def JointOK (cfg : JointConfig) (asg : List Assign) : Prop :=
  ∀ a ∈ asg, 2 ≤ (blockClasses asg a).length →
    a.subj ∈ cfg.jointSubjects ∧
      ∃ tag, ∀ c ∈ blockClasses asg a, classToTag cfg c = some tag

lemma subjectClash_eq_true_iff (asg : List Assign) :
    subjectClash asg = true ↔ ¬ NoClash asg := by
  simp only [subjectClash, List.any_eq_true, decide_eq_true_eq, NoClash]
  push_neg
  rfl

lemma dedup_eq_singleton_of_forall {α : Type} [DecidableEq α] :
    ∀ (l : List α) (x : α), l ≠ [] → (∀ y ∈ l, y = x) → l.dedup = [x]
  | [], x, h, _ => absurd rfl h
  | a :: t, x, _, hall => by
      have ha : a = x := hall a (List.mem_cons_self a t)
      rcases eq_or_ne t [] with rfl | hne
      · simp [ha]
      · have ht : t.dedup = [x] := dedup_eq_singleton_of_forall t x hne
          (fun y hy => hall y (List.mem_cons_of_mem a hy))
        have hx : a ∈ t := by
          cases t with
          | nil => exact absurd rfl hne
          | cons b t' =>
              have hb : b = x := hall b (by simp)
              rw [ha, ← hb]
              exact List.mem_cons_self b t'
        rw [List.dedup_cons_of_mem hx, ht]

lemma tagsOk_eq_true_iff (cfg : JointConfig) (cls : List Nat)
    (hne : cls ≠ []) :
    tagsOk cfg cls = true ↔ ∃ tag, ∀ c ∈ cls, classToTag cfg c = some tag := by
  rw [tagsOk, decide_eq_true_iff]
  constructor
  · rintro ⟨hlen, hnone⟩
    rcases List.length_eq_one.mp hlen with ⟨x, hx⟩
    cases x with
    | none => rw [hx] at hnone; simp at hnone
    | some tag =>
        refine ⟨tag, fun c hc => ?_⟩
        have hmem : classToTag cfg c ∈ (cls.map (classToTag cfg)).dedup := by
          rw [List.mem_dedup]
          exact List.mem_map_of_mem _ hc
        rw [hx] at hmem
        simpa using hmem
  · rintro ⟨tag, htag⟩
    have hmap : cls.map (classToTag cfg) ≠ [] := by
      simp only [ne_eq, List.map_eq_nil_iff]
      exact hne
    have hd : (cls.map (classToTag cfg)).dedup = [some tag] :=
      dedup_eq_singleton_of_forall _ _ hmap (by
        intro y hy
        rcases List.mem_map.mp hy with ⟨c, hc, rfl⟩
        exact htag c hc)
    rw [hd]
    simp

lemma cg_mem_blockClasses (asg : List Assign) (a : Assign) (ha : a ∈ asg) :
    a.cg ∈ blockClasses asg a := by
  rw [blockClasses, List.mem_dedup, List.mem_map]
  refine ⟨a, ?_, rfl⟩
  rw [List.mem_filter]
  exact ⟨ha, by simp⟩

lemma blockClasses_ne_nil (asg : List Assign) (a : Assign) (ha : a ∈ asg) :
    blockClasses asg a ≠ [] :=
  List.ne_nil_of_mem (cg_mem_blockClasses asg a ha)

lemma blockViolation_eq_none_iff (cfg : JointConfig) (asg : List Assign)
    (a : Assign) (ha : a ∈ asg) :
    blockViolation cfg asg a = none ↔
      (2 ≤ (blockClasses asg a).length →
        a.subj ∈ cfg.jointSubjects ∧
          ∃ tag, ∀ c ∈ blockClasses asg a, classToTag cfg c = some tag) := by
  rw [blockViolation]
  by_cases hlen : (blockClasses asg a).length ≤ 1
  · simp [hlen]
    omega
  · have h2 : 2 ≤ (blockClasses asg a).length := by omega
    simp only [if_neg hlen]
    by_cases hjs : a.subj ∈ cfg.jointSubjects
    · rw [if_neg (not_not_intro hjs)]
      by_cases htag : tagsOk cfg (blockClasses asg a) = true
      · simp only [if_pos htag]
        have := (tagsOk_eq_true_iff cfg _ (blockClasses_ne_nil asg a ha)).mp htag
        simp [h2, hjs, this]
      · simp only [if_neg htag]
        constructor
        · intro h
          exact absurd h (by simp)
        · intro h
          rcases h h2 with ⟨-, htag2⟩
          exact absurd ((tagsOk_eq_true_iff cfg _
            (blockClasses_ne_nil asg a ha)).mpr htag2) htag
    · simp only [if_pos (by simpa using hjs)]
      constructor
      · intro h
        exact absurd h (by simp)
      · intro h
        exact absurd (h h2).1 hjs

lemma validateSave_eq_none_iff (cfg : JointConfig) (sub : Submission)
    (selected : List Nat) (days : List String) (slots : List (Nat × Nat)) :
    validateSave cfg sub selected days slots = none ↔
      hasParseError sub selected days slots = false ∧
      NoClash (parsedCells sub selected days slots) ∧
      JointOK cfg (parsedCells sub selected days slots) := by
  rw [validateSave]
  by_cases hpe : hasParseError sub selected days slots
  · simp [hpe]
  · rw [if_neg hpe]
    by_cases hcl : subjectClash (parsedCells sub selected days slots) = true
    · have := (subjectClash_eq_true_iff _).mp hcl
      simp [hcl, hpe, this]
    · have hnc : NoClash (parsedCells sub selected days slots) := by
        by_contra h
        exact hcl ((subjectClash_eq_true_iff _).mpr h)
      rw [if_neg hcl]
      rw [List.findSome?_eq_none_iff]
      constructor
      · intro h
        refine ⟨by simpa using hpe, hnc, fun a ha h2 => ?_⟩
        exact (blockViolation_eq_none_iff cfg _ a ha).mp (h a ha) h2
      · rintro ⟨-, -, hjo⟩ a ha
        exact (blockViolation_eq_none_iff cfg _ a ha).mpr (hjo a ha)

/-! ## Structural facts about the parsed submission and the created rows -/

lemma mem_cellKeys (selected : List Nat) (days : List String)
    (slots : List (Nat × Nat)) (k : CellKey) :
    k ∈ cellKeys selected days slots ↔
      k.cg ∈ selected ∧ k.day ∈ days ∧ (k.st, k.et) ∈ slots ∧
        (k.idx = 1 ∨ k.idx = 2 ∨ k.idx = 3) := by
  cases k with
  | mk cg day st et idx =>
      simp only [cellKeys, cellKeysCg, cellKeysDay, cellKeysSlot,
        List.mem_flatMap, List.mem_map]
      constructor
      · rintro ⟨cg', hcg, day', hday, s, hs, i, hi, he⟩
        injection he with e1 e2 e3 e4 e5
        subst e1
        subst e2
        subst e3
        subst e4
        subst e5
        simp only [List.mem_cons, List.not_mem_nil, or_false] at hi
        exact ⟨hcg, hday, hs, hi⟩
      · rintro ⟨hcg, hday, hs, hidx⟩
        exact ⟨cg, hcg, day, hday, (st, et), hs, idx, by simpa using hidx, rfl⟩

lemma mem_parsedCells (sub : Submission) (selected : List Nat)
    (days : List String) (slots : List (Nat × Nat)) (a : Assign)
    (ha : a ∈ parsedCells sub selected days slots) :
    a.cg ∈ selected ∧ a.day ∈ days ∧ (a.st, a.et) ∈ slots := by
  rw [parsedCells, List.mem_filterMap] at ha
  rcases ha with ⟨k, hk, hpk⟩
  have hm := (mem_cellKeys selected days slots k).mp hk
  cases hsub : sub k with
  | empty =>
      rw [parseCellFn, hsub] at hpk
      cases hpk
  | malformed =>
      rw [parseCellFn, hsub] at hpk
      cases hpk
  | pair s t =>
      rw [parseCellFn, hsub] at hpk
      cases hpk
      exact ⟨hm.1, hm.2.1, hm.2.2.1⟩

lemma parsedCells_nil (sub : Submission) (days : List String)
    (slots : List (Nat × Nat)) : parsedCells sub [] days slots = [] := by
  simp [parsedCells, cellKeys]

lemma mem_dedupKeepFirst :
    ∀ (l seen : List Assign) (a : Assign), a ∈ dedupKeepFirst l seen → a ∈ l
  | [], _, a, h => by simp [dedupKeepFirst] at h
  | b :: t, seen, a, h => by
      rw [dedupKeepFirst] at h
      by_cases hb : b ∈ seen
      · rw [if_pos hb] at h
        exact List.mem_cons_of_mem b (mem_dedupKeepFirst t seen a h)
      · rw [if_neg hb] at h
        rcases List.mem_cons.mp h with rfl | h2
        · exact List.mem_cons_self a t
        · exact List.mem_cons_of_mem b (mem_dedupKeepFirst t (b :: seen) a h2)

lemma dedupKeepFirst_complete :
    ∀ (l seen : List Assign) (a : Assign), a ∈ l →
      a ∈ dedupKeepFirst l seen ∨ a ∈ seen
  | [], _, a, h => by simp at h
  | b :: t, seen, a, h => by
      rw [dedupKeepFirst]
      by_cases hb : b ∈ seen
      · rw [if_pos hb]
        rcases List.mem_cons.mp h with rfl | h2
        · exact Or.inr hb
        · exact dedupKeepFirst_complete t seen a h2
      · rw [if_neg hb]
        rcases List.mem_cons.mp h with rfl | h2
        · exact Or.inl (List.mem_cons_self a _)
        · rcases dedupKeepFirst_complete t (b :: seen) a h2 with h3 | h3
          · exact Or.inl (List.mem_cons_of_mem b h3)
          · rcases List.mem_cons.mp h3 with rfl | h4
            · exact Or.inl (List.mem_cons_self a _)
            · exact Or.inr h4

lemma dedupKeepFirst_nodup :
    ∀ (l seen : List Assign),
      (dedupKeepFirst l seen).Nodup ∧ ∀ a ∈ seen, a ∉ dedupKeepFirst l seen
  | [], seen => by simp [dedupKeepFirst]
  | b :: t, seen => by
      rw [dedupKeepFirst]
      by_cases hb : b ∈ seen
      · rw [if_pos hb]
        exact dedupKeepFirst_nodup t seen
      · rw [if_neg hb]
        rcases dedupKeepFirst_nodup t (b :: seen) with ⟨hnd, hseen⟩
        constructor
        · exact List.nodup_cons.mpr ⟨hseen b (List.mem_cons_self b seen), hnd⟩
        · intro a ha
          rw [List.mem_cons]
          rintro (rfl | h2)
          · exact hb ha
          · exact hseen a (List.mem_cons_of_mem b ha) h2

lemma dedupKeepFirst_of_nodup :
    ∀ (l seen : List Assign), l.Nodup → (∀ a ∈ l, a ∉ seen) →
      dedupKeepFirst l seen = l
  | [], _, _, _ => rfl
  | b :: t, seen, hnd, hdisj => by
      rw [dedupKeepFirst, if_neg (hdisj b (List.mem_cons_self b t))]
      congr 1
      apply dedupKeepFirst_of_nodup t (b :: seen) (List.nodup_cons.mp hnd).2
      intro a ha
      rw [List.mem_cons]
      rintro (rfl | h2)
      · exact (List.nodup_cons.mp hnd).1 ha
      · exact hdisj a (List.mem_cons_of_mem b ha) h2

lemma mem_buildRows (asg : List Assign) (r : Row) :
    r ∈ buildRows asg ↔ ∃ a ∈ asg, r = mkRow a := by
  rw [buildRows, List.mem_map]
  constructor
  · rintro ⟨a, ha, rfl⟩
    exact ⟨a, mem_dedupKeepFirst asg [] a ha, rfl⟩
  · rintro ⟨a, ha, rfl⟩
    rcases dedupKeepFirst_complete asg [] a ha with h | h
    · exact ⟨a, h, rfl⟩
    · simp at h

lemma mkRow_inj (a b : Assign) (h : mkRow a = mkRow b) : a = b := by
  cases a
  cases b
  simp [mkRow] at h
  obtain ⟨h1, h2, h3, h4, h5, h6⟩ := h
  subst h1 h2 h3 h4 h5 h6
  rfl

lemma buildRows_nodup (asg : List Assign) : (buildRows asg).Nodup := by
  rw [buildRows]
  exact List.Nodup.map (fun a b h => mkRow_inj a b h)
    (dedupKeepFirst_nodup asg []).1

lemma mkRow_scope (selected : List Nat) (days : List String)
    (slots : List (Nat × Nat)) (sub : Submission) (a : Assign)
    (ha : a ∈ parsedCells sub selected days slots) :
    inScopeOfSelected selected days (slots.map Prod.fst) (mkRow a) = true := by
  rcases mem_parsedCells sub selected days slots a ha with ⟨h1, h2, h3⟩
  simp only [inScopeOfSelected, mkRow, Bool.and_eq_true, List.any_eq_true,
    decide_eq_true_eq]
  refine ⟨⟨⟨a.cg, by simp, h1⟩, h2⟩, ?_⟩
  exact List.mem_map.mpr ⟨(a.st, a.et), h3, rfl⟩

lemma validateSave_ne_none (cfg : JointConfig) (sub : Submission)
    (selected : List Nat) (days : List String) (slots : List (Nat × Nat))
    (h : ¬ NoClash (parsedCells sub selected days slots) ∨
         ¬ JointOK cfg (parsedCells sub selected days slots)) :
    validateSave cfg sub selected days slots ≠ none := by
  intro hn
  rcases (validateSave_eq_none_iff cfg sub selected days slots).mp hn with
    ⟨-, hnc, hjo⟩
  rcases h with h | h
  exacts [h hnc, h hjo]

lemma violation_selected_ne (sub : Submission) (cfg : JointConfig)
    (days : List String) (slots : List (Nat × Nat)) (rawIds : List SelId)
    (h : ¬ NoClash (parsedCells sub (parseSelected rawIds) days slots) ∨
         ¬ JointOK cfg (parsedCells sub (parseSelected rawIds) days slots)) :
    parseSelected rawIds ≠ [] := by
  intro h0
  rw [h0, parsedCells_nil] at h
  rcases h with h | h
  · exact h fun a ha => absurd ha (List.not_mem_nil a)
  · exact h fun a ha => absurd ha (List.not_mem_nil a)

lemma timetable_builder_save_eq (db : DB) (rawIds : List SelId)
    (sub : Submission) (cfg : JointConfig) (h : parseSelected rawIds ≠ []) :
    timetable_builder db rawIds .save sub cfg =
      doSave cfg sub (parseSelected rawIds) timetableDays timetableSlots db := by
  simp [timetable_builder, h]

lemma remedial_builder_save_eq (db : DB) (rawIds : List SelId)
    (sub : Submission) (cfg : JointConfig) (h : parseSelected rawIds ≠ []) :
    remedial_timetable_builder db rawIds .save sub cfg =
      doSave cfg sub (parseSelected rawIds) remedialDays remedialSlots db := by
  simp [remedial_timetable_builder, h]

lemma doSave_of_some (cfg : JointConfig) (sub : Submission)
    (selected : List Nat) (days : List String) (slots : List (Nat × Nat))
    (db : DB) (e : SaveErr)
    (h : validateSave cfg sub selected days slots = some e) :
    doSave cfg sub selected days slots db = (db, some e) := by
  rw [doSave, h]

/-- C1: if the submitted batch gives one teacher two different subjects in
one slot, or has a multi-class block whose subject is not an active joint
subject or whose class groups do not share one active joint-set tag, then
the save (normal or remedial) is rejected with an error message and the
persisted table is returned unchanged. -/
theorem C1_rejected_batch_is_noop (db : DB) (rawIds : List SelId)
    (sub : Submission) (cfg : JointConfig) :
    ((¬ NoClash (parsedCells sub (parseSelected rawIds) timetableDays
        timetableSlots) ∨
      ¬ JointOK cfg (parsedCells sub (parseSelected rawIds) timetableDays
        timetableSlots)) →
      (timetable_builder db rawIds .save sub cfg).1 = db ∧
        (timetable_builder db rawIds .save sub cfg).2 ≠ none) ∧
    ((¬ NoClash (parsedCells sub (parseSelected rawIds) remedialDays
        remedialSlots) ∨
      ¬ JointOK cfg (parsedCells sub (parseSelected rawIds) remedialDays
        remedialSlots)) →
      (remedial_timetable_builder db rawIds .save sub cfg).1 = db ∧
        (remedial_timetable_builder db rawIds .save sub cfg).2 ≠ none) := by
  constructor
  · intro h
    have hne := violation_selected_ne sub cfg timetableDays timetableSlots rawIds h
    have hv := validateSave_ne_none cfg sub (parseSelected rawIds)
      timetableDays timetableSlots h
    rcases Option.ne_none_iff_exists'.mp hv with ⟨e, he⟩
    rw [timetable_builder_save_eq db rawIds sub cfg hne,
      doSave_of_some cfg sub _ _ _ db e he]
    exact ⟨rfl, by simp⟩
  · intro h
    have hne := violation_selected_ne sub cfg remedialDays remedialSlots rawIds h
    have hv := validateSave_ne_none cfg sub (parseSelected rawIds)
      remedialDays remedialSlots h
    rcases Option.ne_none_iff_exists'.mp hv with ⟨e, he⟩
    rw [remedial_builder_save_eq db rawIds sub cfg hne,
      doSave_of_some cfg sub _ _ _ db e he]
    exact ⟨rfl, by simp⟩

/-- The empty joint configuration (no active `JointSubject`, no active
`JointClassGroupSet`). -/
def cfgNone : JointConfig := ⟨[], []⟩

/-- A submission with every cell blank. -/
def subEmpty : Submission := fun _ => .empty

/-- Scenario D: class group 1 is given subject 1 and subject 2 with the
same teacher 1 in the same Monday 08:00–08:40 slot. -/
def subScenD : Submission := fun k =>
  if k = ⟨1, "Mon", 480, 520, 1⟩ then .pair 1 1
  else if k = ⟨1, "Mon", 480, 520, 2⟩ then .pair 2 1
  else .empty

set_option maxRecDepth 40000

theorem C1_witness :
    (timetable_builder [] [SelId.ok 1] .save subScenD cfgNone).1 = [] ∧
    (timetable_builder [] [SelId.ok 1] .save subScenD cfgNone).2 ≠ none :=
  (C1_rejected_batch_is_noop [] [SelId.ok 1] subScenD cfgNone).1
    (Or.inl fun h =>
      absurd (h ⟨1, "Mon", 480, 520, 1, 1⟩ (by decide)
        ⟨1, "Mon", 480, 520, 2, 1⟩ (by decide) (by decide)) (by decide))

/-- C10: a builder POST whose selected-class list parses to nothing is a
silent no-op for every action (no error message, table unchanged), while an
unrecognized action with classes selected leaves the table unchanged but
does produce the unknown-action message. -/
theorem C10_empty_selection_is_silent_noop (db : DB) (rawIds : List SelId)
    (action : BAction) (sub : Submission) (cfg : JointConfig) :
    (parseSelected rawIds = [] →
      timetable_builder db rawIds action sub cfg = (db, none) ∧
      remedial_timetable_builder db rawIds action sub cfg = (db, none)) ∧
    (parseSelected rawIds ≠ [] →
      timetable_builder db rawIds .other sub cfg = (db, some .unknownAction) ∧
      remedial_timetable_builder db rawIds .other sub cfg =
        (db, some .unknownAction)) := by
  constructor
  · intro h
    constructor
    · simp [timetable_builder, h]
    · simp [remedial_timetable_builder, h]
  · intro h
    constructor
    · simp [timetable_builder, h]
    · simp [remedial_timetable_builder, h]

theorem C10_witness :
    (timetable_builder [⟨some 1, 1, "Mon", 480, 520, [1]⟩] [SelId.bad] .save
        subEmpty cfgNone = ([⟨some 1, 1, "Mon", 480, 520, [1]⟩], none) ∧
      remedial_timetable_builder [⟨some 1, 1, "Mon", 480, 520, [1]⟩]
        [SelId.bad] .save subEmpty cfgNone =
        ([⟨some 1, 1, "Mon", 480, 520, [1]⟩], none)) ∧
    (timetable_builder [⟨some 1, 1, "Mon", 480, 520, [1]⟩] [SelId.ok 1]
        .other subEmpty cfgNone =
        ([⟨some 1, 1, "Mon", 480, 520, [1]⟩], some .unknownAction) ∧
      remedial_timetable_builder [⟨some 1, 1, "Mon", 480, 520, [1]⟩]
        [SelId.ok 1] .other subEmpty cfgNone =
        ([⟨some 1, 1, "Mon", 480, 520, [1]⟩], some .unknownAction)) :=
  ⟨(C10_empty_selection_is_silent_noop [⟨some 1, 1, "Mon", 480, 520, [1]⟩]
      [SelId.bad] .save subEmpty cfgNone).1 (by decide),
   (C10_empty_selection_is_silent_noop [⟨some 1, 1, "Mon", 480, 520, [1]⟩]
      [SelId.ok 1] .other subEmpty cfgNone).2 (by decide)⟩

/-- Frame property of one builder invocation with selection `selected`
over the fixed structure `(days, slots)`: rows touching no selected class
group survive unchanged; every deleted row touched a selected class group
AND lay inside the structure's day-set and start-time scope; every created
row is attached to a selected class group and sits on a structure day and
slot. -/
def framePreserved (db db' : DB) (selected : List Nat) (days : List String)
    (slots : List (Nat × Nat)) : Prop :=
  (∀ r ∈ db, (∀ c ∈ r.cgs, c ∉ selected) → r ∈ db') ∧
  (∀ r ∈ db, r ∉ db' →
    (∃ c ∈ r.cgs, c ∈ selected) ∧ r.day ∈ days ∧ r.st ∈ slots.map Prod.fst) ∧
  (∀ r ∈ db', r ∉ db →
    (∃ c ∈ r.cgs, c ∈ selected) ∧ r.day ∈ days ∧ (r.st, r.et) ∈ slots)

lemma inScope_false_of_unselected (selected : List Nat) (days : List String)
    (starts : List Nat) (r : Row) (h : ∀ c ∈ r.cgs, c ∉ selected) :
    inScopeOfSelected selected days starts r = false := by
  have hA : (r.cgs.any fun c => decide (c ∈ selected)) = false := by
    rw [List.any_eq_false]
    intro c hc
    simpa using h c hc
  rw [inScopeOfSelected, hA]
  rfl

lemma framePreserved_refl (db : DB) (selected : List Nat)
    (days : List String) (slots : List (Nat × Nat)) :
    framePreserved db db selected days slots := by
  refine ⟨fun r hr _ => hr, fun r hr hr2 => absurd hr hr2,
    fun r hr hr2 => absurd hr hr2⟩

lemma framePreserved_filter (db : DB) (selected : List Nat)
    (days : List String) (slots : List (Nat × Nat)) :
    framePreserved db
      (db.filter fun r =>
        !(inScopeOfSelected selected days (slots.map Prod.fst) r))
      selected days slots := by
  refine ⟨fun r hr h => ?_, fun r hr h => ?_, fun r hr h => ?_⟩
  · refine List.mem_filter.mpr ⟨hr, ?_⟩
    rw [inScope_false_of_unselected selected days (slots.map Prod.fst) r h]
    rfl
  · have hs : inScopeOfSelected selected days (slots.map Prod.fst) r =
        true := by
      by_contra hs
      exact h (List.mem_filter.mpr ⟨hr, by simp [Bool.eq_false_iff.mpr hs]⟩)
    simp only [inScopeOfSelected, Bool.and_eq_true, List.any_eq_true,
      decide_eq_true_eq] at hs
    rcases hs.1.1 with ⟨c, hc1, hc2⟩
    exact ⟨⟨c, hc1, hc2⟩, hs.1.2, hs.2⟩
  · exact absurd (List.mem_filter.mp hr).1 h

lemma framePreserved_doSave (cfg : JointConfig) (sub : Submission)
    (selected : List Nat) (days : List String) (slots : List (Nat × Nat))
    (db : DB) :
    framePreserved db (doSave cfg sub selected days slots db).1 selected
      days slots := by
  rw [doSave]
  cases hv : validateSave cfg sub selected days slots with
  | some e => exact framePreserved_refl db selected days slots
  | none =>
      have hf := framePreserved_filter db selected days slots
      refine ⟨fun r hr h => ?_, fun r hr h => ?_, fun r hr h => ?_⟩
      · exact List.mem_append_left _ (hf.1 r hr h)
      · refine hf.2.1 r hr fun hk => ?_
        exact h (List.mem_append_left _ hk)
      · rcases List.mem_append.mp hr with hk | hn
        · exact absurd (List.mem_filter.mp hk).1 h
        · rcases (mem_buildRows _ r).mp hn with ⟨a, ha, rfl⟩
          rcases mem_parsedCells sub selected days slots a ha with
            ⟨h1, h2, h3⟩
          exact ⟨⟨a.cg, by simp [mkRow], h1⟩, h2, h3⟩

/-- C8 counterexample: a persisted row attached to class group 1 AND
class group 2, with only class group 1 selected for the edit, is deleted
whole by the clear (a save behaves identically): class group 2 is not in
the selection, yet its entry does not survive — entries of unselected
class groups are untouched only when they share no row with a selected
class group. -/
theorem C8_counterexample :
    timetable_builder [⟨some 1, 1, "Mon", 480, 520, [1, 2]⟩] [SelId.ok 1]
      .clear subEmpty cfgNone = ([], none) ∧
    2 ∈ (⟨some 1, 1, "Mon", 480, 520, [1, 2]⟩ : Row).cgs ∧
    2 ∉ parseSelected [SelId.ok 1] := by
  refine ⟨by decide, by decide, by decide⟩

/-- C8 (amended): for every builder POST (any action, both builders), rows
touching no selected class group are left completely unchanged, every
deleted row both touched a selected class group and lay within the fixed
structure in use (its day in the structure's day set and its start time in
the structure's start-time set), and every created row is attached to a
selected class group on a structure day and slot.  A row shared between a
selected and an unselected class group is, however, deleted whole. -/
theorem C8_touched_rows_selected_and_in_structure (db : DB)
    (rawIds : List SelId) (action : BAction) (sub : Submission)
    (cfg : JointConfig) :
    framePreserved db (timetable_builder db rawIds action sub cfg).1
      (parseSelected rawIds) timetableDays timetableSlots ∧
    framePreserved db (remedial_timetable_builder db rawIds action sub cfg).1
      (parseSelected rawIds) remedialDays remedialSlots := by
  constructor
  · by_cases h : parseSelected rawIds = []
    · have he : (timetable_builder db rawIds action sub cfg).1 = db := by
        simp [timetable_builder, h]
      rw [he]
      exact framePreserved_refl db _ _ _
    · cases action with
      | clear =>
          have he : (timetable_builder db rawIds .clear sub cfg).1 =
              db.filter fun r => !(inScopeOfSelected (parseSelected rawIds)
                timetableDays (timetableSlots.map Prod.fst) r) := by
            simp [timetable_builder, h]
          rw [he]
          exact framePreserved_filter db _ _ _
      | save =>
          rw [timetable_builder_save_eq db rawIds sub cfg h]
          exact framePreserved_doSave cfg sub _ _ _ db
      | other =>
          have he : (timetable_builder db rawIds .other sub cfg).1 = db := by
            simp [timetable_builder, h]
          rw [he]
          exact framePreserved_refl db _ _ _
  · by_cases h : parseSelected rawIds = []
    · have he : (remedial_timetable_builder db rawIds action sub cfg).1 =
          db := by
        simp [remedial_timetable_builder, h]
      rw [he]
      exact framePreserved_refl db _ _ _
    · cases action with
      | clear =>
          have he : (remedial_timetable_builder db rawIds .clear sub cfg).1 =
              db := by
            simp [remedial_timetable_builder, h]
          rw [he]
          exact framePreserved_refl db _ _ _
      | save =>
          rw [remedial_builder_save_eq db rawIds sub cfg h]
          exact framePreserved_doSave cfg sub _ _ _ db
      | other =>
          have he : (remedial_timetable_builder db rawIds .other sub cfg).1 =
              db := by
            simp [remedial_timetable_builder, h]
          rw [he]
          exact framePreserved_refl db _ _ _

theorem C8_witness :
    (⟨some 7, 3, "Mon", 480, 520, [9]⟩ : Row) ∈
      (timetable_builder [⟨some 7, 3, "Mon", 480, 520, [9]⟩] [SelId.ok 1]
        .clear subEmpty cfgNone).1 ∧
    ((∃ c ∈ (⟨some 8, 4, "Mon", 480, 520, [1]⟩ : Row).cgs,
        c ∈ parseSelected [SelId.ok 1]) ∧
      "Mon" ∈ timetableDays ∧ 480 ∈ timetableSlots.map Prod.fst) :=
  ⟨(C8_touched_rows_selected_and_in_structure
      [⟨some 7, 3, "Mon", 480, 520, [9]⟩] [SelId.ok 1] .clear subEmpty
      cfgNone).1.1 ⟨some 7, 3, "Mon", 480, 520, [9]⟩ (by decide) (by decide),
   (C8_touched_rows_selected_and_in_structure
      [⟨some 8, 4, "Mon", 480, 520, [1]⟩] [SelId.ok 1] .clear subEmpty
      cfgNone).1.2.1 ⟨some 8, 4, "Mon", 480, 520, [1]⟩ (by decide)
     (by decide)⟩

lemma doSave_accepted (cfg : JointConfig) (sub : Submission)
    (selected : List Nat) (days : List String) (slots : List (Nat × Nat))
    (db : DB) (h : validateSave cfg sub selected days slots = none) :
    doSave cfg sub selected days slots db =
      ((db.filter fun r =>
          !(inScopeOfSelected selected days (slots.map Prod.fst) r)) ++
        buildRows (parsedCells sub selected days slots), none) := by
  rw [doSave, h]

lemma buildRows_filter_out (sub : Submission) (selected : List Nat)
    (days : List String) (slots : List (Nat × Nat)) :
    (buildRows (parsedCells sub selected days slots)).filter
      (fun r => !(inScopeOfSelected selected days (slots.map Prod.fst) r)) =
      [] := by
  rw [List.filter_eq_nil_iff]
  intro r hr
  rcases (mem_buildRows _ r).mp hr with ⟨a, ha, rfl⟩
  rw [mkRow_scope selected days slots sub a ha]
  simp

lemma timetable_builder_accepted_validate (db : DB) (rawIds : List SelId)
    (sub : Submission) (cfg : JointConfig)
    (h : parseSelected rawIds ≠ [])
    (hacc : (timetable_builder db rawIds .save sub cfg).2 = none) :
    validateSave cfg sub (parseSelected rawIds) timetableDays
      timetableSlots = none := by
  rw [timetable_builder_save_eq db rawIds sub cfg h] at hacc
  cases hv : validateSave cfg sub (parseSelected rawIds) timetableDays
    timetableSlots with
  | some e =>
      rw [doSave, hv] at hacc
      simp at hacc
  | none => rfl

/-- C7: re-running an already-accepted identical submission through the
normal builder is idempotent: the second save is accepted again and the
resulting table is exactly the table after the first save. -/
theorem C7_resave_idempotent (db : DB) (rawIds : List SelId)
    (sub : Submission) (cfg : JointConfig)
    (hacc : (timetable_builder db rawIds .save sub cfg).2 = none) :
    timetable_builder (timetable_builder db rawIds .save sub cfg).1 rawIds
        .save sub cfg =
      ((timetable_builder db rawIds .save sub cfg).1, none) := by
  by_cases h : parseSelected rawIds = []
  · simp [timetable_builder, h]
  · have hv := timetable_builder_accepted_validate db rawIds sub cfg h hacc
    rw [timetable_builder_save_eq db rawIds sub cfg h,
      doSave_accepted cfg sub _ _ _ db hv,
      timetable_builder_save_eq _ rawIds sub cfg h,
      doSave_accepted cfg sub _ _ _ _ hv]
    have hl : (((db.filter fun r =>
          !(inScopeOfSelected (parseSelected rawIds) timetableDays
            (timetableSlots.map Prod.fst) r)) ++
          buildRows (parsedCells sub (parseSelected rawIds) timetableDays
            timetableSlots)).filter fun r =>
            !(inScopeOfSelected (parseSelected rawIds) timetableDays
              (timetableSlots.map Prod.fst) r)) =
        db.filter fun r =>
          !(inScopeOfSelected (parseSelected rawIds) timetableDays
            (timetableSlots.map Prod.fst) r) := by
      rw [List.filter_append, buildRows_filter_out]
      simp [List.filter_filter]
    rw [hl]

/-- Scenario B joint configuration: subject 1 is an active joint subject
and class groups 1 and 2 form the active joint set tagged F2. -/
def cfgF2 : JointConfig := ⟨[1], [("F2", [1, 2])]⟩

/-- Scenario B submission: class groups 1 and 2 both get subject 1 with
teacher 1 at Monday 08:00–08:40, sub-index 1. -/
def subScenB : Submission := fun k =>
  if k = ⟨1, "Mon", 480, 520, 1⟩ then .pair 1 1
  else if k = ⟨2, "Mon", 480, 520, 1⟩ then .pair 1 1
  else .empty

theorem C7_witness :
    timetable_builder
        (timetable_builder [] [SelId.ok 1, SelId.ok 2] .save subScenB
          cfgF2).1 [SelId.ok 1, SelId.ok 2] .save subScenB cfgF2 =
      ((timetable_builder [] [SelId.ok 1, SelId.ok 2] .save subScenB
        cfgF2).1, none) :=
  C7_resave_idempotent [] [SelId.ok 1, SelId.ok 2] subScenB cfgF2 (by decide)

/-- C5 (amended): the rows created by any single accepted normal-builder
save satisfy the teacher-slot invariant among themselves — within one
batch a teacher never gets two subjects in one slot. -/
theorem C5_single_save_rows_inv (db : DB) (rawIds : List SelId)
    (sub : Submission) (cfg : JointConfig)
    (hacc : (timetable_builder db rawIds .save sub cfg).2 = none) :
    teacherSlotInv (buildRows (parsedCells sub (parseSelected rawIds)
      timetableDays timetableSlots)) := by
  by_cases h : parseSelected rawIds = []
  · rw [h, parsedCells_nil]
    intro r1 hr1
    simp [buildRows, dedupKeepFirst] at hr1
  · have hv := timetable_builder_accepted_validate db rawIds sub cfg h hacc
    rcases (validateSave_eq_none_iff cfg sub _ _ _).mp hv with ⟨-, hnc, -⟩
    intro r1 hr1 r2 hr2 ht hd hs he
    rcases (mem_buildRows _ r1).mp hr1 with ⟨a, ha, rfl⟩
    rcases (mem_buildRows _ r2).mp hr2 with ⟨b, hb, rfl⟩
    simp only [mkRow] at ht hd hs he ⊢
    have heq : a.subj = b.subj := by
      refine hnc a ha b hb ?_
      simp only [tkey, Prod.mk.injEq]
      exact ⟨ht, hd, hs, he⟩
    rw [heq]

theorem C5_witness :
    teacherSlotInv (buildRows (parsedCells subScenB
      (parseSelected [SelId.ok 1, SelId.ok 2]) timetableDays
      timetableSlots)) :=
  C5_single_save_rows_inv [] [SelId.ok 1, SelId.ok 2] subScenB cfgF2
    (by decide)

/-- Submission of the first step of the C5 counterexample: class group 1,
subject 1, teacher 1, Monday 08:00. -/
def subC5a : Submission := fun k =>
  if k = ⟨1, "Mon", 480, 520, 1⟩ then .pair 1 1 else .empty

/-- Submission of the second step of the C5 counterexample: class group 2,
subject 2, the same teacher 1 and the same Monday 08:00 slot. -/
def subC5b : Submission := fun k =>
  if k = ⟨2, "Mon", 480, 520, 1⟩ then .pair 2 1 else .empty

/-- C5 counterexample: two accepted saves over different selections reach
a persisted state in which teacher 1 has subjects 1 and 2 in the same
Monday 08:00–08:40 slot — the claimed invariant fails on a reachable
state, because validation and deletion are scoped to the selected class
groups only. -/
theorem C5_counterexample :
    Reach [⟨some 1, 1, "Mon", 480, 520, [1]⟩,
           ⟨some 2, 1, "Mon", 480, 520, [2]⟩] ∧
    ¬ teacherSlotInv [⟨some 1, 1, "Mon", 480, 520, [1]⟩,
                      ⟨some 2, 1, "Mon", 480, 520, [2]⟩] := by
  constructor
  · have h1 : (timetable_builder [] [SelId.ok 1] .save subC5a cfgNone).1 =
        [⟨some 1, 1, "Mon", 480, 520, [1]⟩] := by decide
    have h2 : (timetable_builder [⟨some 1, 1, "Mon", 480, 520, [1]⟩]
        [SelId.ok 2] .save subC5b cfgNone).1 =
        [⟨some 1, 1, "Mon", 480, 520, [1]⟩,
         ⟨some 2, 1, "Mon", 480, 520, [2]⟩] := by decide
    have r1 := Reach.normalStep [] [SelId.ok 1] .save subC5a cfgNone
      Reach.init
    rw [h1] at r1
    have r2 := Reach.normalStep _ [SelId.ok 2] .save subC5b cfgNone r1
    rw [h2] at r2
    exact r2
  · intro h
    have := h ⟨some 1, 1, "Mon", 480, 520, [1]⟩ (by simp)
      ⟨some 2, 1, "Mon", 480, 520, [2]⟩ (by simp) rfl rfl rfl rfl
    simp at this

/-- C3 counterexample (Scenario B): a valid joint save for class groups 1
and 2 creates two persisted rows, each attached to exactly one class
group — no single entry is attached to both class groups sharing the
logical lesson. -/
theorem C3_counterexample :
    timetable_builder [] [SelId.ok 1, SelId.ok 2] .save subScenB cfgF2 =
      ([⟨some 1, 1, "Mon", 480, 520, [1]⟩,
        ⟨some 1, 1, "Mon", 480, 520, [2]⟩], none) ∧
    ¬ ∃ r ∈ (timetable_builder [] [SelId.ok 1, SelId.ok 2] .save subScenB
        cfgF2).1, 1 ∈ r.cgs ∧ 2 ∈ r.cgs := by
  constructor
  · decide
  · decide

/-- C3 (amended): an accepted normal-builder save replaces the selected
classes' rows with exactly one row per distinct parsed assignment
`(class group, day, slot, subject, teacher)`: the created rows are
pairwise distinct, each is the row of one of the submitted assignments
(hence attached to exactly that assignment's single class group), and
every submitted assignment — a repeated identical cell value counted
once — has its row. -/
theorem C3_one_row_per_assignment (db : DB) (rawIds : List SelId)
    (sub : Submission) (cfg : JointConfig)
    (hacc : (timetable_builder db rawIds .save sub cfg).2 = none)
    (hsel : parseSelected rawIds ≠ []) :
    (timetable_builder db rawIds .save sub cfg).1 =
      (db.filter fun r =>
        !(inScopeOfSelected (parseSelected rawIds) timetableDays
          (timetableSlots.map Prod.fst) r)) ++
      buildRows (parsedCells sub (parseSelected rawIds) timetableDays
        timetableSlots) ∧
    (buildRows (parsedCells sub (parseSelected rawIds) timetableDays
      timetableSlots)).Nodup ∧
    (∀ r ∈ buildRows (parsedCells sub (parseSelected rawIds) timetableDays
      timetableSlots),
      ∃ a ∈ parsedCells sub (parseSelected rawIds) timetableDays
        timetableSlots, r = mkRow a) ∧
    (∀ a ∈ parsedCells sub (parseSelected rawIds) timetableDays
      timetableSlots,
      mkRow a ∈ buildRows (parsedCells sub (parseSelected rawIds)
        timetableDays timetableSlots)) := by
  have hv := timetable_builder_accepted_validate db rawIds sub cfg hsel hacc
  refine ⟨?_, buildRows_nodup _, ?_, ?_⟩
  · rw [timetable_builder_save_eq db rawIds sub cfg hsel,
      doSave_accepted cfg sub _ _ _ db hv]
  · intro r hr
    exact (mem_buildRows _ r).mp hr
  · intro a ha
    exact (mem_buildRows _ (mkRow a)).mpr ⟨a, ha, rfl⟩

theorem C3_witness :
    (timetable_builder [] [SelId.ok 1, SelId.ok 2] .save subScenB cfgF2).1 =
      ([].filter fun r =>
        !(inScopeOfSelected (parseSelected [SelId.ok 1, SelId.ok 2])
          timetableDays (timetableSlots.map Prod.fst) r)) ++
      buildRows (parsedCells subScenB
        (parseSelected [SelId.ok 1, SelId.ok 2]) timetableDays
        timetableSlots) :=
  (C3_one_row_per_assignment [] [SelId.ok 1, SelId.ok 2] subScenB cfgF2
    (by decide) (by decide)).1

/-- C6: the normal and remedial scope filters are NOT disjoint — a normal
Monday 08:00–08:40 lesson also satisfies the remedial day/start-time
membership test (Mon is a remedial day and 08:00 is the Saturday-morning
remedial start time), so an accepted remedial save for its class group —
here one with an entirely empty grid — deletes it. -/
theorem C6_scope_overlap_deletes_normal_row :
    ("Mon" ∈ timetableDays ∧ 480 ∈ timetableSlots.map Prod.fst) ∧
    ("Mon" ∈ remedialDays ∧ 480 ∈ remedialSlots.map Prod.fst) ∧
    remedial_timetable_builder [⟨some 5, 9, "Mon", 480, 520, [1]⟩]
      [SelId.ok 1] .save subEmpty cfgNone = ([], none) := by
  refine ⟨by decide, by decide, by decide⟩

/-- Submission of the C4 failing run: class group 1 gets subject 1 with
teacher 1 on Monday and on Tuesday at 08:00–08:40, so the accepted save
must create two rows. -/
def subC4 : Submission := fun k =>
  if k = ⟨1, "Mon", 480, 520, 1⟩ then .pair 1 1
  else if k = ⟨1, "Tue", 480, 520, 1⟩ then .pair 1 1
  else .empty

/-- C4: the accepted save issues its delete and its row creations as
separate autocommitted operations (no transactional boundary exists in the
source).  For a table holding one old row and a submission creating two
rows, executing only the first two of the three operations — exactly the
committed state if the second `create` fails — leaves a partial grid: the
old row is gone and only one of the two new rows exists, a state equal
neither to the pre-save nor to the post-save table. -/
theorem C4_partial_commit_state :
    validateSave cfgNone subC4 [1] timetableDays timetableSlots = none ∧
    saveOps subC4 [1] timetableDays timetableSlots =
      [DbOp.del 1, DbOp.create ⟨some 1, 1, "Mon", 480, 520, [1]⟩,
       DbOp.create ⟨some 1, 1, "Tue", 480, 520, [1]⟩] ∧
    execOps timetableDays (timetableSlots.map Prod.fst)
        [⟨some 5, 9, "Mon", 480, 520, [1]⟩]
        ((saveOps subC4 [1] timetableDays timetableSlots).take 2) =
      [⟨some 1, 1, "Mon", 480, 520, [1]⟩] ∧
    execOps timetableDays (timetableSlots.map Prod.fst)
        [⟨some 5, 9, "Mon", 480, 520, [1]⟩]
        (saveOps subC4 [1] timetableDays timetableSlots) =
      (doSave cfgNone subC4 [1] timetableDays timetableSlots
        [⟨some 5, 9, "Mon", 480, 520, [1]⟩]).1 ∧
    [Row.mk (some 1) 1 "Mon" 480 520 [1]] ≠
      [⟨some 5, 9, "Mon", 480, 520, [1]⟩] ∧
    [Row.mk (some 1) 1 "Mon" 480 520 [1]] ≠
      (doSave cfgNone subC4 [1] timetableDays timetableSlots
        [⟨some 5, 9, "Mon", 480, 520, [1]⟩]).1 := by
  refine ⟨by decide, by decide, by decide, by decide, by decide, by decide⟩

/-- The normalized attendance value one row feeds into the merge:
`(rec.status or "Pending").strip()`. -/
def normStatus (rec : Option String) : String :=
  stripStr (orDefault rec "Pending")

/-- The normalized payment value one row feeds into the merge:
`(rec.payment_status or "").strip()`. -/
def normPay (rec : Option String) : String :=
  stripStr (orDefault rec "")

lemma foldl_statusStep_char :
    ∀ (l : List (Option String)) (s : String),
      ∃ v, l.foldl statusStep (some s) = some v ∧
        (v = s ∨ v ∈ l.map normStatus) ∧
        status_rank s ≤ status_rank v ∧
        ∀ u ∈ l.map normStatus, status_rank u ≤ status_rank v
  | [], s => ⟨s, rfl, Or.inl rfl, le_refl _, by simp⟩
  | r :: t, s => by
      rw [List.foldl_cons]
      by_cases h : status_rank (normStatus r) > status_rank s
      · have hstep : statusStep (some s) r = some (normStatus r) := by
          show (if status_rank (normStatus r) > status_rank s
            then some (normStatus r) else some s) = some (normStatus r)
          rw [if_pos h]
        rw [hstep]
        rcases foldl_statusStep_char t (normStatus r) with ⟨v, hv, hmem, hle, hall⟩
        refine ⟨v, hv, ?_, by omega, ?_⟩
        · rcases hmem with rfl | hm
          · exact Or.inr (by simp)
          · exact Or.inr (by simp [hm])
        · intro u hu
          simp only [List.map_cons, List.mem_cons] at hu
          rcases hu with rfl | hu
          · exact hle
          · exact hall u hu
      · have hstep : statusStep (some s) r = some s := by
          show (if status_rank (normStatus r) > status_rank s
            then some (normStatus r) else some s) = some s
          rw [if_neg h]
        rw [hstep]
        rcases foldl_statusStep_char t s with ⟨v, hv, hmem, hle, hall⟩
        refine ⟨v, hv, ?_, hle, ?_⟩
        · rcases hmem with rfl | hm
          · exact Or.inl rfl
          · exact Or.inr (by simp [hm])
        · intro u hu
          simp only [List.map_cons, List.mem_cons] at hu
          rcases hu with rfl | hu
          · omega
          · exact hall u hu

lemma mergeStatus_char (l : List (Option String)) (h : l ≠ []) :
    ∃ v, mergeStatus l = some v ∧ v ∈ l.map normStatus ∧
      ∀ u ∈ l.map normStatus, status_rank u ≤ status_rank v := by
  cases l with
  | nil => exact absurd rfl h
  | cons r t =>
      rw [mergeStatus, List.foldl_cons]
      have hstep : statusStep none r = some (normStatus r) := rfl
      rw [hstep]
      rcases foldl_statusStep_char t (normStatus r) with ⟨v, hv, hmem, hle, hall⟩
      refine ⟨v, hv, ?_, ?_⟩
      · rcases hmem with rfl | hm
        · simp
        · simp [hm]
      · intro u hu
        simp only [List.map_cons, List.mem_cons] at hu
        rcases hu with rfl | hu
        · exact hle
        · exact hall u hu

lemma foldl_paymentStep_char :
    ∀ (l : List (Option String)) (s : String), s ≠ "" →
      ∃ v, l.foldl paymentStep (some s) = some v ∧
        (v = s ∨ v ∈ l.map normPay) ∧ v ≠ "" ∧
        payment_rank s ≤ payment_rank v ∧
        ∀ u ∈ l.map normPay, u ≠ "" → payment_rank u ≤ payment_rank v
  | [], s, hs => ⟨s, rfl, Or.inl rfl, hs, le_refl _, by simp⟩
  | r :: t, s, hs => by
      rw [List.foldl_cons]
      by_cases hblank : normPay r = ""
      · have hstep : paymentStep (some s) r = some s := by
          show (if normPay r = "" then some s
            else if payment_rank (normPay r) > payment_rank s
              then some (normPay r) else some s) = some s
          rw [if_pos hblank]
        rw [hstep]
        rcases foldl_paymentStep_char t s hs with ⟨v, hv, hmem, hvne, hle, hall⟩
        refine ⟨v, hv, ?_, hvne, hle, ?_⟩
        · rcases hmem with rfl | hm
          · exact Or.inl rfl
          · exact Or.inr (by simp [hm])
        · intro u hu hune
          simp only [List.map_cons, List.mem_cons] at hu
          rcases hu with rfl | hu
          · exact absurd hblank hune
          · exact hall u hu hune
      · by_cases hgt : payment_rank (normPay r) > payment_rank s
        · have hstep : paymentStep (some s) r = some (normPay r) := by
            show (if normPay r = "" then some s
              else if payment_rank (normPay r) > payment_rank s
                then some (normPay r) else some s) = some (normPay r)
            rw [if_neg hblank, if_pos hgt]
          rw [hstep]
          rcases foldl_paymentStep_char t (normPay r) hblank with
            ⟨v, hv, hmem, hvne, hle, hall⟩
          refine ⟨v, hv, ?_, hvne, by omega, ?_⟩
          · rcases hmem with rfl | hm
            · exact Or.inr (by simp)
            · exact Or.inr (by simp [hm])
          · intro u hu hune
            simp only [List.map_cons, List.mem_cons] at hu
            rcases hu with rfl | hu
            · exact hle
            · exact hall u hu hune
        · have hstep : paymentStep (some s) r = some s := by
            show (if normPay r = "" then some s
              else if payment_rank (normPay r) > payment_rank s
                then some (normPay r) else some s) = some s
            rw [if_neg hblank, if_neg hgt]
          rw [hstep]
          rcases foldl_paymentStep_char t s hs with ⟨v, hv, hmem, hvne, hle, hall⟩
          refine ⟨v, hv, ?_, hvne, hle, ?_⟩
          · rcases hmem with rfl | hm
            · exact Or.inl rfl
            · exact Or.inr (by simp [hm])
          · intro u hu hune
            simp only [List.map_cons, List.mem_cons] at hu
            rcases hu with rfl | hu
            · omega
            · exact hall u hu hune

lemma mergePayment_char :
    ∀ l : List (Option String),
      (mergePayment l = none ↔ ∀ u ∈ l.map normPay, u = "") ∧
      (∀ v, mergePayment l = some v →
        v ∈ l.map normPay ∧ v ≠ "" ∧
          ∀ u ∈ l.map normPay, u ≠ "" → payment_rank u ≤ payment_rank v)
  | [] => by
      constructor
      · simp [mergePayment]
      · intro v hv
        simp [mergePayment] at hv
  | r :: t => by
      rcases mergePayment_char t with ⟨IH1, IH2⟩
      rw [mergePayment] at IH1 IH2
      by_cases hblank : normPay r = ""
      · have hstep : paymentStep none r = none := by
          show (if normPay r = "" then none else some (normPay r)) = none
          rw [if_pos hblank]
        constructor
        · rw [mergePayment, List.foldl_cons, hstep]
          rw [IH1]
          constructor
          · intro hall u hu
            simp only [List.map_cons, List.mem_cons] at hu
            rcases hu with rfl | hu
            · exact hblank
            · exact hall u hu
          · intro hall u hu
            exact hall u (by simp [hu])
        · intro v hv
          rw [mergePayment, List.foldl_cons, hstep] at hv
          rcases IH2 v hv with ⟨hm, hvne, hall⟩
          refine ⟨by simp [hm], hvne, ?_⟩
          intro u hu hune
          simp only [List.map_cons, List.mem_cons] at hu
          rcases hu with rfl | hu
          · exact absurd hblank hune
          · exact hall u hu hune
      · have hstep : paymentStep none r = some (normPay r) := by
          show (if normPay r = "" then none else some (normPay r)) =
            some (normPay r)
          rw [if_neg hblank]
        constructor
        · rw [mergePayment, List.foldl_cons, hstep]
          constructor
          · intro hn
            rcases foldl_paymentStep_char t (normPay r) hblank with
              ⟨v, hv, -, -, -, -⟩
            rw [hv] at hn
            cases hn
          · intro hall
            exact absurd (hall (normPay r) (by simp)) hblank
        · intro v hv
          rw [mergePayment, List.foldl_cons, hstep] at hv
          rcases foldl_paymentStep_char t (normPay r) hblank with
            ⟨w, hw, hmem, hwne, hle, hall⟩
          rw [hw] at hv
          cases hv
          refine ⟨?_, hwne, ?_⟩
          · rcases hmem with rfl | hm
            · simp
            · simp [hm]
          · intro u hu hune
            simp only [List.map_cons, List.mem_cons] at hu
            rcases hu with rfl | hu
            · exact hle
            · exact hall u hu hune

lemma status_rank_inj_canonical :
    ∀ s ∈ ["Pending", "Attended", "Not Attended"],
      ∀ t ∈ ["Pending", "Attended", "Not Attended"],
        status_rank s = status_rank t → s = t := by decide

lemma payment_rank_inj_canonical :
    ∀ s ∈ ["Paid", "Unpaid"], ∀ t ∈ ["Paid", "Unpaid"],
      payment_rank s = payment_rank t → s = t := by decide

/-- C9 (amended): in `remedial_stats` the merged attendance status of a
logical lesson is an observed (normalized) row value of maximal
`status_rank`, and likewise for payment over the non-blank values; with
row values drawn from the model's declared choices the merge is moreover
independent of the visit order.  (`deputy_normal_stats` does NOT share
this property — see the counterexample.) -/
theorem C9_remedial_merge_is_priority_max (l l2 : List (Option String)) :
    (l ≠ [] → ∃ v, mergeStatus l = some v ∧ v ∈ l.map normStatus ∧
      ∀ u ∈ l.map normStatus, status_rank u ≤ status_rank v) ∧
    (∀ v, mergePayment l = some v → v ∈ l.map normPay ∧ v ≠ "" ∧
      ∀ u ∈ l.map normPay, u ≠ "" → payment_rank u ≤ payment_rank v) ∧
    (l.Perm l2 →
      ((∀ rec ∈ l, normStatus rec ∈ ["Pending", "Attended", "Not Attended"]) →
        mergeStatus l = mergeStatus l2) ∧
      ((∀ rec ∈ l, normPay rec ∈ ["", "Paid", "Unpaid"]) →
        mergePayment l = mergePayment l2)) := by
  refine ⟨mergeStatus_char l, (mergePayment_char l).2, fun hperm => ⟨?_, ?_⟩⟩
  · intro hcan
    rcases eq_or_ne l [] with rfl | hne
    · rw [List.Perm.eq_nil hperm.symm]
    · have hne2 : l2 ≠ [] := by
        intro h0
        rw [h0] at hperm
        exact hne (List.Perm.eq_nil hperm)
      rcases mergeStatus_char l hne with ⟨v1, hv1, hm1, hall1⟩
      rcases mergeStatus_char l2 hne2 with ⟨v2, hv2, hm2, hall2⟩
      have hmapperm : (l.map normStatus).Perm (l2.map normStatus) :=
        hperm.map normStatus
      have hc1 : v1 ∈ ["Pending", "Attended", "Not Attended"] := by
        rcases List.mem_map.mp hm1 with ⟨rec, hrec, rfl⟩
        exact hcan rec hrec
      have hc2 : v2 ∈ ["Pending", "Attended", "Not Attended"] := by
        rcases List.mem_map.mp hm2 with ⟨rec, hrec, rfl⟩
        exact hcan rec (hperm.mem_iff.mpr hrec)
      have h12 : status_rank v1 ≤ status_rank v2 :=
        hall2 v1 (hmapperm.mem_iff.mp hm1)
      have h21 : status_rank v2 ≤ status_rank v1 :=
        hall1 v2 (hmapperm.mem_iff.mpr hm2)
      have : v1 = v2 :=
        status_rank_inj_canonical v1 hc1 v2 hc2 (le_antisymm h12 h21)
      rw [hv1, hv2, this]
  · intro hcan
    have hmapperm : (l.map normPay).Perm (l2.map normPay) :=
      hperm.map normPay
    cases h1 : mergePayment l with
    | none =>
        have hall := (mergePayment_char l).1.mp h1
        have : mergePayment l2 = none := by
          rw [(mergePayment_char l2).1]
          intro u hu
          exact hall u (hmapperm.mem_iff.mpr hu)
        rw [this]
    | some v1 =>
        rcases (mergePayment_char l).2 v1 h1 with ⟨hm1, hne1, hall1⟩
        cases h2 : mergePayment l2 with
        | none =>
            have hall := (mergePayment_char l2).1.mp h2
            exact absurd (hall v1 (hmapperm.mem_iff.mp hm1)) hne1
        | some v2 =>
            rcases (mergePayment_char l2).2 v2 h2 with ⟨hm2, hne2, hall2⟩
            have hc1 : v1 ∈ ["Paid", "Unpaid"] := by
              rcases List.mem_map.mp hm1 with ⟨rec, hrec, rfl⟩
              have := hcan rec hrec
              simp only [List.mem_cons, List.not_mem_nil, or_false] at this ⊢
              rcases this with h | h | h
              · exact absurd h hne1
              · exact Or.inl h
              · exact Or.inr h
            have hc2 : v2 ∈ ["Paid", "Unpaid"] := by
              rcases List.mem_map.mp hm2 with ⟨rec, hrec, rfl⟩
              have := hcan rec (hperm.mem_iff.mpr hrec)
              simp only [List.mem_cons, List.not_mem_nil, or_false] at this ⊢
              rcases this with h | h | h
              · exact absurd h hne2
              · exact Or.inl h
              · exact Or.inr h
            have h12 : payment_rank v1 ≤ payment_rank v2 :=
              hall2 v1 (hmapperm.mem_iff.mp hm1) hne1
            have h21 : payment_rank v2 ≤ payment_rank v1 :=
              hall1 v2 (hmapperm.mem_iff.mpr hm2) hne2
            rw [payment_rank_inj_canonical v1 hc1 v2 hc2 (le_antisymm h12 h21)]

theorem C9_witness :
    mergeStatus [some "Attended", some "Pending"] =
      mergeStatus [some "Pending", some "Attended"] ∧
    mergePayment [some "Unpaid", some "Paid"] =
      mergePayment [some "Paid", some "Unpaid"] :=
  ⟨((C9_remedial_merge_is_priority_max [some "Attended", some "Pending"]
      [some "Pending", some "Attended"]).2.2 (by decide)).1 (by decide),
   ((C9_remedial_merge_is_priority_max [some "Unpaid", some "Paid"]
      [some "Paid", some "Unpaid"]).2.2 (by decide)).2 (by decide)⟩

/-- C9 counterexample: `deputy_normal_stats` collapses a logical lesson by
overwriting, so with rows visited as Attended then Pending the merged
status is Pending although Attended — of strictly higher priority — was
observed: the highest-priority-wins description fails for this collapser. -/
theorem C9_counterexample :
    deputyStatus [some "Attended", some "Pending"] = some "Pending" ∧
    some "Attended" ∈ [some "Attended", some "Pending"] ∧
    status_rank "Pending" < status_rank "Attended" := by
  refine ⟨rfl, by decide, by decide⟩

/-! ## Generic list lemmas used by the round-trip proof -/

lemma filter_flatMap {α β : Type} (l : List α) (F : α → List β) (p : β → Bool) :
    (l.flatMap F).filter p = l.flatMap fun x => (F x).filter p := by
  induction l with
  | nil => rfl
  | cons a t ih => simp only [List.flatMap_cons, List.filter_append, ih]

lemma flatMap_eq_nil_of {α β : Type} (l : List α) (F : α → List β)
    (h : ∀ x ∈ l, F x = []) : l.flatMap F = [] := by
  induction l with
  | nil => rfl
  | cons a t ih =>
      rw [List.flatMap_cons, h a (List.mem_cons_self a t), List.nil_append]
      exact ih fun x hx => h x (List.mem_cons_of_mem a hx)

lemma flatMap_eq_of_single {α β : Type} :
    ∀ (l : List α) (F : α → List β) (x : α), x ∈ l → l.Nodup →
      (∀ y ∈ l, y ≠ x → F y = []) → l.flatMap F = F x
  | [], _, x, hx, _, _ => absurd hx (List.not_mem_nil x)
  | a :: t, F, x, hx, hnd, hnil => by
      rw [List.flatMap_cons]
      rcases List.mem_cons.mp hx with rfl | hxt
      · have ht : t.flatMap F = [] :=
          flatMap_eq_nil_of t F fun y hy =>
            hnil y (List.mem_cons_of_mem _ hy)
              (fun h => (List.nodup_cons.mp hnd).1 (h ▸ hy))
        rw [ht, List.append_nil]
      · have ha : F a = [] :=
          hnil a (List.mem_cons_self a t)
            (fun h => (List.nodup_cons.mp hnd).1 (h ▸ hxt))
        rw [ha, List.nil_append]
        exact flatMap_eq_of_single t F x hxt (List.nodup_cons.mp hnd).2
          fun y hy hne => hnil y (List.mem_cons_of_mem _ hy) hne

lemma flatMap_eq_map_of_mem {α β : Type} :
    ∀ (l : List α) (F : α → List β) (g : α → β),
      (∀ a ∈ l, F a = [g a]) → l.flatMap F = l.map g
  | [], _, _, _ => rfl
  | a :: t, F, g, h => by
      rw [List.flatMap_cons, List.map_cons, h a (List.mem_cons_self a t)]
      rw [List.singleton_append]
      congr 1
      exact flatMap_eq_map_of_mem t F g fun x hx =>
        h x (List.mem_cons_of_mem a hx)

lemma filterMap_filter_comm {α β : Type} (f : α → Option β) (p : β → Bool) :
    ∀ l : List α,
      (l.filterMap f).filter p =
        l.filterMap fun x =>
          match f x with
          | some y => if p y then some y else none
          | none => none
  | [] => rfl
  | a :: t => by
      cases hf : f a with
      | none =>
          simp only [List.filterMap_cons, hf]
          exact filterMap_filter_comm f p t
      | some b =>
          by_cases hp : p b
          · simp only [List.filterMap_cons, hf, List.filter_cons, hp, if_true]
            rw [filterMap_filter_comm f p t]
          · simp only [List.filterMap_cons, hf, List.filter_cons, hp,
              Bool.false_eq_true, if_false]
            rw [filterMap_filter_comm f p t]

lemma filterMap_ite {α β : Type} (f : α → Option β) (q : α → Prop)
    [DecidablePred q] :
    ∀ l : List α,
      l.filterMap (fun k => if q k then f k else none) =
        (l.filter fun k => decide (q k)).filterMap f
  | [] => rfl
  | a :: t => by
      by_cases hq : q a
      · rw [List.filterMap_cons, if_pos hq]
        have hfc : ((a :: t).filter fun k => decide (q k)) =
            a :: t.filter fun k => decide (q k) := by
          simp [List.filter_cons, hq]
        rw [hfc, List.filterMap_cons]
        cases f a with
        | none => exact filterMap_ite f q t
        | some b => rw [filterMap_ite f q t]
      · rw [List.filterMap_cons, if_neg hq]
        have hfc : ((a :: t).filter fun k => decide (q k)) =
            t.filter fun k => decide (q k) := by
          simp [List.filter_cons, hq]
        rw [hfc]
        exact filterMap_ite f q t

lemma nodup_filterMap_on {α β : Type} :
    ∀ (l : List α) (f : α → Option β), l.Nodup →
      (∀ a ∈ l, ∀ a' ∈ l, ∀ b, f a = some b → f a' = some b → a = a') →
      (l.filterMap f).Nodup
  | [], _, _, _ => List.nodup_nil
  | a :: t, f, hnd, hinj => by
      have ht : (t.filterMap f).Nodup :=
        nodup_filterMap_on t f (List.nodup_cons.mp hnd).2 fun x hx y hy b hxb hyb =>
          hinj x (List.mem_cons_of_mem a hx) y (List.mem_cons_of_mem a hy) b hxb hyb
      cases hf : f a with
      | none => simpa [List.filterMap_cons, hf] using ht
      | some b =>
          rw [List.filterMap_cons, hf]
          refine List.nodup_cons.mpr ⟨?_, ht⟩
          intro hb
          rcases List.mem_filterMap.mp hb with ⟨x, hx, hxb⟩
          have : a = x := hinj a (List.mem_cons_self a t) x
            (List.mem_cons_of_mem a hx) b hf hxb
          exact (List.nodup_cons.mp hnd).1 (this ▸ hx)

lemma nodup_flatMap_of {α β : Type} :
    ∀ (l : List α) (F : α → List β), l.Nodup →
      (∀ x ∈ l, (F x).Nodup) →
      (∀ x ∈ l, ∀ y ∈ l, x ≠ y → ∀ b ∈ F x, b ∉ F y) →
      (l.flatMap F).Nodup
  | [], _, _, _, _ => List.nodup_nil
  | a :: t, F, hnd, hF, hdisj => by
      rw [List.flatMap_cons]
      refine List.Nodup.append (hF a (List.mem_cons_self a t))
        (nodup_flatMap_of t F (List.nodup_cons.mp hnd).2
          (fun x hx => hF x (List.mem_cons_of_mem a hx))
          (fun x hx y hy hxy => hdisj x (List.mem_cons_of_mem a hx) y
            (List.mem_cons_of_mem a hy) hxy)) ?_
      intro b hba hbt
      rcases List.mem_flatMap.mp hbt with ⟨y, hy, hby⟩
      have hay : a ≠ y := fun h => (List.nodup_cons.mp hnd).1 (h ▸ hy)
      exact hdisj a (List.mem_cons_self a t) y (List.mem_cons_of_mem a hy)
        hay b hba hby

/-! ## Locating one visual cell inside the parsed submission -/

lemma mem_cellKeysSlot (cg : Nat) (day : String) (s : Nat × Nat) (k : CellKey) :
    k ∈ cellKeysSlot cg day s ↔
      k.cg = cg ∧ k.day = day ∧ k.st = s.1 ∧ k.et = s.2 ∧
        (k.idx = 1 ∨ k.idx = 2 ∨ k.idx = 3) := by
  cases k with
  | mk kcg kday kst ket kidx =>
      simp only [cellKeysSlot, List.mem_map, List.mem_cons, List.not_mem_nil,
        or_false]
      constructor
      · rintro ⟨i, hi, he⟩
        injection he with e1 e2 e3 e4 e5
        subst e1
        subst e2
        subst e3
        subst e4
        subst e5
        exact ⟨rfl, rfl, rfl, rfl, hi⟩
      · rintro ⟨rfl, rfl, rfl, rfl, hidx⟩
        exact ⟨kidx, hidx, rfl⟩

lemma mem_cellKeysDay (cg : Nat) (day : String) (slots : List (Nat × Nat))
    (k : CellKey) :
    k ∈ cellKeysDay cg day slots ↔
      k.cg = cg ∧ k.day = day ∧ (k.st, k.et) ∈ slots ∧
        (k.idx = 1 ∨ k.idx = 2 ∨ k.idx = 3) := by
  simp only [cellKeysDay, List.mem_flatMap]
  constructor
  · rintro ⟨s, hs, hk⟩
    rcases (mem_cellKeysSlot cg day s k).mp hk with ⟨h1, h2, h3, h4, h5⟩
    refine ⟨h1, h2, ?_, h5⟩
    rw [h3, h4]
    cases s
    exact hs
  · rintro ⟨h1, h2, h3, h4⟩
    exact ⟨(k.st, k.et), h3,
      (mem_cellKeysSlot cg day _ k).mpr ⟨h1, h2, rfl, rfl, h4⟩⟩

lemma mem_cellKeysCg (cg : Nat) (days : List String)
    (slots : List (Nat × Nat)) (k : CellKey) :
    k ∈ cellKeysCg cg days slots ↔
      k.cg = cg ∧ k.day ∈ days ∧ (k.st, k.et) ∈ slots ∧
        (k.idx = 1 ∨ k.idx = 2 ∨ k.idx = 3) := by
  simp only [cellKeysCg, List.mem_flatMap]
  constructor
  · rintro ⟨day, hday, hk⟩
    rcases (mem_cellKeysDay cg day slots k).mp hk with ⟨h1, h2, h3, h4⟩
    refine ⟨h1, ?_, h3, h4⟩
    rw [h2]
    exact hday
  · rintro ⟨h1, h2, h3, h4⟩
    exact ⟨k.day, h2, (mem_cellKeysDay cg k.day slots k).mpr ⟨h1, rfl, h3, h4⟩⟩

lemma cellKeysSlot_nodup (cg : Nat) (day : String) (s : Nat × Nat) :
    (cellKeysSlot cg day s).Nodup := by
  simp [cellKeysSlot]

lemma cellKeysDay_nodup (cg : Nat) (day : String) (slots : List (Nat × Nat))
    (h : slots.Nodup) : (cellKeysDay cg day slots).Nodup := by
  refine nodup_flatMap_of slots _ h (fun s _ => cellKeysSlot_nodup cg day s) ?_
  intro s hs s' hs' hne k hk hk'
  rcases (mem_cellKeysSlot cg day s k).mp hk with ⟨-, -, h3, h4, -⟩
  rcases (mem_cellKeysSlot cg day s' k).mp hk' with ⟨-, -, h3', h4', -⟩
  apply hne
  cases s with
  | mk a c =>
      cases s' with
      | mk a' c' =>
          simp only at h3 h4 h3' h4'
          rw [← h3, ← h4, ← h3', ← h4']

lemma cellKeysCg_nodup (cg : Nat) (days : List String)
    (slots : List (Nat × Nat)) (hd : days.Nodup) (hs : slots.Nodup) :
    (cellKeysCg cg days slots).Nodup := by
  refine nodup_flatMap_of days _ hd
    (fun day _ => cellKeysDay_nodup cg day slots hs) ?_
  intro d hd1 d' hd2 hne k hk hk'
  rcases (mem_cellKeysDay cg d slots k).mp hk with ⟨-, h2, -, -⟩
  rcases (mem_cellKeysDay cg d' slots k).mp hk' with ⟨-, h2', -, -⟩
  exact hne (h2 ▸ h2' ▸ rfl)

lemma cellKeys_nodup (selected : List Nat) (days : List String)
    (slots : List (Nat × Nat)) (hsel : selected.Nodup) (hd : days.Nodup)
    (hs : slots.Nodup) : (cellKeys selected days slots).Nodup := by
  refine nodup_flatMap_of selected _ hsel
    (fun cg _ => cellKeysCg_nodup cg days slots hd hs) ?_
  intro c hc1 c' hc2 hne k hk hk'
  rcases (mem_cellKeysCg c days slots k).mp hk with ⟨h1, -, -, -⟩
  rcases (mem_cellKeysCg c' days slots k).mp hk' with ⟨h1', -, -, -⟩
  exact hne (h1 ▸ h1' ▸ rfl)

/-- The base of an assignment's cell. -/
def abase (a : Assign) : BaseKey := ⟨a.cg, a.day, a.st, a.et⟩

lemma parseCellFn_some (sub : Submission) (k : CellKey) (a : Assign)
    (h : parseCellFn sub k = some a) :
    a.cg = k.cg ∧ a.day = k.day ∧ a.st = k.st ∧ a.et = k.et ∧
      sub k = .pair a.subj a.teacher := by
  rw [parseCellFn] at h
  cases hs : sub k with
  | empty =>
      rw [hs] at h
      cases h
  | malformed =>
      rw [hs] at h
      cases h
  | pair s t =>
      rw [hs] at h
      cases h
      exact ⟨rfl, rfl, rfl, rfl, rfl⟩

lemma cellKeys_filter_base (selected : List Nat) (days : List String)
    (slots : List (Nat × Nat)) (b : BaseKey)
    (hselnd : selected.Nodup) (hdnd : days.Nodup) (hsnd : slots.Nodup)
    (hcg : b.cg ∈ selected) (hday : b.day ∈ days)
    (hslot : (b.st, b.et) ∈ slots) :
    ((cellKeys selected days slots).filter fun k => decide (baseOf k = b)) =
      cellKeysSlot b.cg b.day (b.st, b.et) := by
  rw [cellKeys, filter_flatMap]
  rw [flatMap_eq_of_single selected _ b.cg hcg hselnd ?hz1]
  case hz1 =>
    intro y hy hne
    rw [List.filter_eq_nil_iff]
    intro k hk
    rcases (mem_cellKeysCg y days slots k).mp hk with ⟨h1, -, -, -⟩
    simp only [decide_eq_true_eq]
    intro hb
    apply hne
    rw [← h1]
    exact congrArg BaseKey.cg hb
  rw [cellKeysCg, filter_flatMap]
  rw [flatMap_eq_of_single days _ b.day hday hdnd ?hz2]
  case hz2 =>
    intro y hy hne
    rw [List.filter_eq_nil_iff]
    intro k hk
    rcases (mem_cellKeysDay b.cg y slots k).mp hk with ⟨-, h2, -, -⟩
    simp only [decide_eq_true_eq]
    intro hb
    apply hne
    rw [← h2]
    exact congrArg BaseKey.day hb
  rw [cellKeysDay, filter_flatMap]
  rw [flatMap_eq_of_single slots _ (b.st, b.et) hslot hsnd ?hz3]
  case hz3 =>
    intro s hs hne
    rw [List.filter_eq_nil_iff]
    intro k hk
    rcases (mem_cellKeysSlot b.cg b.day s k).mp hk with ⟨-, -, h3, h4, -⟩
    simp only [decide_eq_true_eq]
    intro hb
    apply hne
    have hst : k.st = b.st := congrArg BaseKey.st hb
    have het : k.et = b.et := congrArg BaseKey.et hb
    cases s with
    | mk a c =>
        simp only at h3 h4
        rw [← h3, ← h4, hst, het]
  rw [List.filter_eq_self.mpr ?hz4]
  case hz4 =>
    intro k hk
    rcases (mem_cellKeysSlot b.cg b.day (b.st, b.et) k).mp hk with
      ⟨h1, h2, h3, h4, -⟩
    simp only at h3 h4
    simp only [decide_eq_true_eq]
    rw [baseOf, h1, h2, h3, h4]

lemma filterMap_congr_fn {α β : Type} :
    ∀ (l : List α) (f g : α → Option β), (∀ a ∈ l, f a = g a) →
      l.filterMap f = l.filterMap g
  | [], _, _, _ => rfl
  | a :: t, f, g, h => by
      rw [List.filterMap_cons, List.filterMap_cons,
        h a (List.mem_cons_self a t),
        filterMap_congr_fn t f g fun x hx => h x (List.mem_cons_of_mem a hx)]

lemma parsedCells_filter_base (sub : Submission) (selected : List Nat)
    (days : List String) (slots : List (Nat × Nat)) (b : BaseKey)
    (hselnd : selected.Nodup) (hdnd : days.Nodup) (hsnd : slots.Nodup)
    (hcg : b.cg ∈ selected) (hday : b.day ∈ days)
    (hslot : (b.st, b.et) ∈ slots) :
    ((parsedCells sub selected days slots).filter
        fun a => decide (abase a = b)) =
      (cellKeysSlot b.cg b.day (b.st, b.et)).filterMap (parseCellFn sub) := by
  rw [parsedCells]
  refine (filterMap_filter_comm (parseCellFn sub)
    (fun a => decide (abase a = b)) (cellKeys selected days slots)).trans ?_
  refine (filterMap_congr_fn (cellKeys selected days slots) _
    (fun k => if baseOf k = b then parseCellFn sub k else none) ?_).trans ?_
  · intro k hk
    cases hf : parseCellFn sub k with
    | none => simp [hf]
    | some a =>
        rcases parseCellFn_some sub k a hf with ⟨h1, h2, h3, h4, -⟩
        have hb : abase a = baseOf k := by
          rw [abase, baseOf, h1, h2, h3, h4]
        simp only [hf, hb, decide_eq_true_eq]
  · refine (filterMap_ite (parseCellFn sub) (fun k => baseOf k = b)
      (cellKeys selected days slots)).trans ?_
    exact congrArg (fun l => l.filterMap (parseCellFn sub))
      (cellKeys_filter_base selected days slots b hselnd hdnd hsnd hcg hday
        hslot)

/-! ## Characterizing the first-free-sub-index placement fold -/

lemma cellOf_inj (b b' : BaseKey) (i i' : Nat)
    (h : cellOf b i = cellOf b' i') : b = b' ∧ i = i' := by
  cases b with
  | mk cg day st et =>
      cases b' with
      | mk cg' day' st' et' =>
          injection h with e1 e2 e3 e4 e5
          subst e1
          subst e2
          subst e3
          subst e4
          subst e5
          exact ⟨rfl, rfl⟩

lemma lookupCur_append_single :
    ∀ (cur : List (CellKey × (Nat × Nat))) (k0 : CellKey) (v0 : Nat × Nat)
      (k : CellKey),
      lookupCur (cur ++ [(k0, v0)]) k =
        match lookupCur cur k with
        | some w => some w
        | none => if k0 = k then some v0 else none
  | [], k0, v0, k => by
      simp only [List.nil_append, lookupCur, List.find?]
      by_cases h : k0 = k
      · simp [h]
      · simp [h]
  | e :: t, k0, v0, k => by
      by_cases h : e.1 = k
      · simp [lookupCur, List.find?, h]
      · have IH := lookupCur_append_single t k0 v0 k
        simp only [lookupCur, List.cons_append, List.find?,
          decide_eq_false h, cond_false] at IH ⊢
        exact IH

/-- The per-base contents of the `current` dictionary: base `b` holds the
values `f b` at sub-indices `1..(f b).length`. -/
def curModels (f : BaseKey → List (Nat × Nat))
    (cur : List (CellKey × (Nat × Nat))) : Prop :=
  (∀ b, (f b).length ≤ 3) ∧
  ∀ b i, 1 ≤ i → i ≤ 3 → lookupCur cur (cellOf b i) = (f b)[i - 1]?

/-- Appending one value to base `b` of a per-base map, capped at three
values per base. -/
def bumpF (f : BaseKey → List (Nat × Nat)) (b : BaseKey) (v : Nat × Nat) :
    BaseKey → List (Nat × Nat) :=
  fun b' =>
    if b' = b then (if (f b).length < 3 then f b ++ [v] else f b) else f b'

lemma find_first_free (n : Nat) (q : Nat → Bool)
    (h1 : q 1 = decide (n + 1 ≤ 1)) (h2 : q 2 = decide (n + 1 ≤ 2))
    (h3 : q 3 = decide (n + 1 ≤ 3)) (hn : n ≤ 3) :
    [1, 2, 3].find? q = if n < 3 then some (n + 1) else none := by
  interval_cases n <;> simp_all [List.find?]

lemma placeContrib_models (f : BaseKey → List (Nat × Nat))
    (cur : List (CellKey × (Nat × Nat))) (h : curModels f cur)
    (b : BaseKey) (v : Nat × Nat) :
    curModels (bumpF f b v) (placeContrib cur (b, v)) := by
  have hq : ∀ i, 1 ≤ i → i ≤ 3 →
      (lookupCur cur (cellOf b i)).isNone =
        decide ((f b).length + 1 ≤ i) := by
    intro i hi1 hi3
    rw [h.2 b i hi1 hi3]
    by_cases hlen : (f b).length + 1 ≤ i
    · rw [List.getElem?_eq_none (by omega)]
      simp [hlen]
    · have hlt : i - 1 < (f b).length := by omega
      rw [List.getElem?_eq_getElem hlt]
      simp [hlen]
  have hfind : ([1, 2, 3].find? fun i =>
      (lookupCur cur (cellOf b i)).isNone) =
      if (f b).length < 3 then some ((f b).length + 1) else none :=
    find_first_free (f b).length _ (hq 1 (by omega) (by omega))
      (hq 2 (by omega) (by omega)) (hq 3 (by omega) (by omega)) (h.1 b)
  by_cases hlen : (f b).length < 3
  · have hplace : placeContrib cur (b, v) =
        cur ++ [(cellOf b ((f b).length + 1), v)] := by
      rw [placeContrib, hfind, if_pos hlen]
    rw [hplace]
    constructor
    · intro b'
      rw [bumpF]
      by_cases hb : b' = b
      · rw [if_pos hb, if_pos hlen]
        rw [List.length_append]
        simp only [List.length_singleton]
        omega
      · rw [if_neg hb]
        exact h.1 b'
    · intro b' i hi1 hi3
      rw [lookupCur_append_single, h.2 b' i hi1 hi3]
      by_cases hb : b' = b
      · subst hb
        rw [bumpF, if_pos rfl, if_pos hlen]
        by_cases hlt : i - 1 < (f b').length
        · rw [List.getElem?_eq_getElem hlt,
            List.getElem?_append_left hlt,
            List.getElem?_eq_getElem hlt]
        · have hnone : (f b')[i - 1]? = none :=
            List.getElem?_eq_none (by omega)
          rw [hnone]
          by_cases hi : i = (f b').length + 1
          · subst hi
            rw [if_pos rfl]
            have : ((f b') ++ [v])[(f b').length]? = some v := by
              rw [List.getElem?_append_right (by omega)]
              simp
            rw [show (f b').length + 1 - 1 = (f b').length from by omega,
              this]
          · rw [if_neg fun he => hi ((cellOf_inj _ _ _ _ he).2).symm]
            rw [List.getElem?_eq_none ?hbig]
            case hbig =>
              rw [List.length_append, List.length_singleton]
              omega
      · rw [bumpF, if_neg hb]
        cases hval : (f b')[i - 1]? with
        | some w => rfl
        | none =>
            rw [if_neg fun he => hb ((cellOf_inj _ _ _ _ he).1).symm]
  · have hplace : placeContrib cur (b, v) = cur := by
      rw [placeContrib, hfind, if_neg hlen]
    have hbump : ∀ b', bumpF f b v b' = f b' := by
      intro b'
      rw [bumpF]
      by_cases hb : b' = b
      · rw [if_pos hb, if_neg hlen, hb]
      · rw [if_neg hb]
    rw [hplace]
    constructor
    · intro b'
      rw [hbump b']
      exact h.1 b'
    · intro b' i hi1 hi3
      rw [hbump b']
      exact h.2 b' i hi1 hi3

/-- Abstract replay of the placement fold on per-base value lists. -/
def specFill (f : BaseKey → List (Nat × Nat)) :
    List (BaseKey × (Nat × Nat)) → BaseKey → List (Nat × Nat)
  | [] => f
  | e :: rest => specFill (bumpF f e.1 e.2) rest

lemma foldl_place_models :
    ∀ (l : List (BaseKey × (Nat × Nat))) (f : BaseKey → List (Nat × Nat))
      (cur : List (CellKey × (Nat × Nat))), curModels f cur →
      curModels (specFill f l) (l.foldl placeContrib cur)
  | [], _, _, h => h
  | e :: rest, f, cur, h => by
      rw [List.foldl_cons, specFill]
      cases e with
      | mk b v =>
          exact foldl_place_models rest (bumpF f b v) (placeContrib cur (b, v))
            (placeContrib_models f cur h b v)

lemma curModels_nil : curModels (fun _ => []) [] := by
  constructor
  · intro b
    simp
  · intro b i hi1 hi3
    simp [lookupCur, List.find?]

/-- The values contributed to one base, in contribution order. -/
def valsOf (b : BaseKey) (l : List (BaseKey × (Nat × Nat))) :
    List (Nat × Nat) :=
  (l.filter fun e => decide (e.1 = b)).map Prod.snd

/-- Sequentially append values to an accumulator, ignoring values once
three are present. -/
def fillVals (acc : List (Nat × Nat)) : List (Nat × Nat) → List (Nat × Nat)
  | [] => acc
  | v :: rest => fillVals (if acc.length < 3 then acc ++ [v] else acc) rest

lemma specFill_eq_fillVals :
    ∀ (l : List (BaseKey × (Nat × Nat))) (f : BaseKey → List (Nat × Nat))
      (b : BaseKey), specFill f l b = fillVals (f b) (valsOf b l)
  | [], f, b => rfl
  | e :: rest, f, b => by
      rw [specFill]
      by_cases hb : e.1 = b
      · have hv : valsOf b (e :: rest) = e.2 :: valsOf b rest := by
          simp [valsOf, List.filter_cons, hb]
        rw [hv, fillVals]
        rw [specFill_eq_fillVals rest (bumpF f e.1 e.2) b]
        congr 1
        rw [bumpF, hb, if_pos rfl]
      · have hv : valsOf b (e :: rest) = valsOf b rest := by
          simp [valsOf, List.filter_cons, hb]
        rw [hv]
        rw [specFill_eq_fillVals rest (bumpF f e.1 e.2) b]
        congr 1
        rw [bumpF, if_neg fun h => hb h.symm]

lemma fillVals_of_short :
    ∀ (l acc : List (Nat × Nat)), acc.length + l.length ≤ 3 →
      fillVals acc l = acc ++ l
  | [], acc, _ => by
      rw [fillVals, List.append_nil]
  | v :: rest, acc, h => by
      rw [fillVals]
      have hlt : acc.length < 3 := by
        simp only [List.length_cons] at h
        omega
      rw [if_pos hlt, fillVals_of_short rest (acc ++ [v]) ?hlen]
      · rw [List.append_assoc, List.singleton_append]
      case hlen =>
        rw [List.length_append, List.length_singleton]
        simp only [List.length_cons] at h
        omega

/-! ## The contributions of a freshly saved table -/

/-- The `current`-map contribution of one assignment's row. -/
def entryOf (a : Assign) : BaseKey × (Nat × Nat) :=
  (abase a, (a.subj, a.teacher))

lemma filter_not_self (db : DB) (p : Row → Bool) :
    ((db.filter fun r => !(p r)).filter p) = [] := by
  rw [List.filter_filter, List.filter_eq_nil_iff]
  intro r hr
  cases hp : p r <;> simp [hp]

lemma rowContrib_mkRow (selected : List Nat) (a : Assign)
    (hcg : a.cg ∈ selected) (hsub : 1 ≤ a.subj) (ht : 1 ≤ a.teacher) :
    rowContrib selected (mkRow a) = [entryOf a] := by
  have hs0 : ¬ a.subj = 0 := by omega
  have ht0 : ¬ a.teacher = 0 := by omega
  simp [rowContrib, mkRow, entryOf, abase, hs0, ht0, List.filter_cons, hcg]

lemma flatMap_map_eq_map :
    ∀ (l : List Assign) (F : Row → List (BaseKey × (Nat × Nat))),
      (∀ a ∈ l, F (mkRow a) = [entryOf a]) →
      (l.map mkRow).flatMap F = l.map entryOf
  | [], _, _ => rfl
  | a :: t, F, h => by
      rw [List.map_cons, List.flatMap_cons, h a (List.mem_cons_self a t),
        List.map_cons, List.singleton_append]
      congr 1
      exact flatMap_map_eq_map t F fun x hx => h x (List.mem_cons_of_mem a hx)

lemma renderContribs_save (sub : Submission) (selected : List Nat)
    (days : List String) (slots : List (Nat × Nat)) (db : DB)
    (hnd : (parsedCells sub selected days slots).Nodup)
    (hpos : ∀ a ∈ parsedCells sub selected days slots,
      1 ≤ a.subj ∧ 1 ≤ a.teacher) :
    renderContribs
        ((db.filter fun r =>
            !(inScopeOfSelected selected days (slots.map Prod.fst) r)) ++
          buildRows (parsedCells sub selected days slots))
        selected days (slots.map Prod.fst) =
      (parsedCells sub selected days slots).map entryOf := by
  rw [renderContribs, List.filter_append, filter_not_self, List.nil_append]
  have hrows : (buildRows (parsedCells sub selected days slots)).filter
      (inScopeOfSelected selected days (slots.map Prod.fst)) =
      buildRows (parsedCells sub selected days slots) := by
    rw [List.filter_eq_self]
    intro r hr
    rcases (mem_buildRows _ r).mp hr with ⟨a, ha, rfl⟩
    exact mkRow_scope selected days slots sub a ha
  rw [hrows, buildRows,
    dedupKeepFirst_of_nodup _ [] hnd (fun a _ => List.not_mem_nil a)]
  refine flatMap_map_eq_map _ _ ?_
  intro a ha
  rcases mem_parsedCells sub selected days slots a ha with ⟨h1, -, -⟩
  exact rowContrib_mkRow selected a h1 (hpos a ha).1 (hpos a ha).2

/-- Per-cell distinctness of a submission: inside one visual cell no two
sub-indices carry the same non-empty value. -/
@[reducible] def CellDistinct (sub : Submission) (selected : List Nat)
    (days : List String) (slots : List (Nat × Nat)) : Prop :=
  ∀ cg ∈ selected, ∀ day ∈ days, ∀ sl ∈ slots,
    ∀ i ∈ [(1 : Nat), 2, 3], ∀ j ∈ [(1 : Nat), 2, 3], i ≠ j →
      sub ⟨cg, day, sl.1, sl.2, i⟩ = sub ⟨cg, day, sl.1, sl.2, j⟩ →
      sub ⟨cg, day, sl.1, sl.2, i⟩ = .empty

/-- Prefix-packedness of a submission: inside one visual cell the
non-empty values sit at the lowest sub-indices. -/
@[reducible] def CellPacked (sub : Submission) (selected : List Nat)
    (days : List String) (slots : List (Nat × Nat)) : Prop :=
  ∀ cg ∈ selected, ∀ day ∈ days, ∀ sl ∈ slots,
    ∀ i ∈ [(1 : Nat), 2, 3], ∀ j ∈ [(1 : Nat), 2, 3], i ≤ j →
      sub ⟨cg, day, sl.1, sl.2, j⟩ ≠ .empty →
      sub ⟨cg, day, sl.1, sl.2, i⟩ ≠ .empty

/-- All ids of submitted pairs are valid (positive) database ids. -/
def IdsPositive (sub : Submission) (selected : List Nat)
    (days : List String) (slots : List (Nat × Nat)) : Bool :=
  (cellKeys selected days slots).all fun k =>
    match sub k with
    | .pair s t => decide (1 ≤ s) && decide (1 ≤ t)
    | _ => true

lemma idsPositive_spec (sub : Submission) (selected : List Nat)
    (days : List String) (slots : List (Nat × Nat))
    (h : IdsPositive sub selected days slots = true) :
    ∀ k ∈ cellKeys selected days slots, ∀ s t, sub k = .pair s t →
      1 ≤ s ∧ 1 ≤ t := by
  rw [IdsPositive, List.all_eq_true] at h
  intro k hk s t hsub
  have := h k hk
  rw [hsub] at this
  simp only [Bool.and_eq_true, decide_eq_true_eq] at this
  exact this

lemma parsedCells_nodup_of_distinct (sub : Submission) (selected : List Nat)
    (days : List String) (slots : List (Nat × Nat))
    (hselnd : selected.Nodup) (hdnd : days.Nodup) (hsnd : slots.Nodup)
    (hdist : CellDistinct sub selected days slots) :
    (parsedCells sub selected days slots).Nodup := by
  rw [parsedCells]
  refine nodup_filterMap_on _ _
    (cellKeys_nodup selected days slots hselnd hdnd hsnd) ?_
  intro k hk k' hk' a hka hka'
  rcases (mem_cellKeys selected days slots k).mp hk with ⟨hc, hd, hs, hi⟩
  rcases (mem_cellKeys selected days slots k').mp hk' with ⟨hc', hd', hs', hi'⟩
  rcases parseCellFn_some sub k a hka with ⟨h1, h2, h3, h4, h5⟩
  rcases parseCellFn_some sub k' a hka' with ⟨h1', h2', h3', h4', h5'⟩
  cases k with
  | mk c d st et i =>
      cases k' with
      | mk c' d' st' et' i' =>
          simp only at h1 h2 h3 h4 h1' h2' h3' h4' hc hd hs hi hc' hd' hs' hi'
          have ec : c' = c := by rw [← h1, ← h1']
          have ed : d' = d := by rw [← h2, ← h2']
          have est : st' = st := by rw [← h3, ← h3']
          have eet : et' = et := by rw [← h4, ← h4']
          subst ec
          subst ed
          subst est
          subst eet
          by_cases hidx : i = i'
          · rw [hidx]
          · exfalso
            have heq : sub ⟨c', d', st', et', i⟩ = sub ⟨c', d', st', et', i'⟩ := by
              rw [h5, h5']
            have hemp := hdist c' hc d' hd (st', et') hs i (by simpa using hi)
              i' (by simpa using hi') hidx heq
            rw [h5] at hemp
            cases hemp

lemma no_malformed_cell (sub : Submission) (selected : List Nat)
    (days : List String) (slots : List (Nat × Nat))
    (hpe : hasParseError sub selected days slots = false) (k : CellKey)
    (hk : k ∈ cellKeys selected days slots) : sub k ≠ .malformed := by
  intro hbad
  rw [hasParseError, List.any_eq_false] at hpe
  have := hpe k hk
  rw [hbad] at this
  simp at this

lemma buildCurrent_lookup_of_accepted (sub : Submission) (sel : List Nat)
    (db : DB) (b : BaseKey) (i : Nat)
    (hnd : sel.Nodup)
    (hpe : hasParseError sub sel timetableDays timetableSlots = false)
    (hpos : IdsPositive sub sel timetableDays timetableSlots = true)
    (hpack : CellPacked sub sel timetableDays timetableSlots)
    (hdist : CellDistinct sub sel timetableDays timetableSlots)
    (hcg : b.cg ∈ sel) (hday : b.day ∈ timetableDays)
    (hslot : (b.st, b.et) ∈ timetableSlots)
    (hi1 : 1 ≤ i) (hi3 : i ≤ 3) :
    lookupCur
        (buildCurrent
          ((db.filter fun r =>
              !(inScopeOfSelected sel timetableDays
                (timetableSlots.map Prod.fst) r)) ++
            buildRows (parsedCells sub sel timetableDays timetableSlots))
          sel timetableDays (timetableSlots.map Prod.fst))
        (cellOf b i) =
      (match sub (cellOf b i) with
       | .pair s t => some (s, t)
       | _ => none) := by
  have hnodup := parsedCells_nodup_of_distinct sub sel timetableDays
    timetableSlots hnd (by decide) (by decide) hdist
  have hposm : ∀ a ∈ parsedCells sub sel timetableDays timetableSlots,
      1 ≤ a.subj ∧ 1 ≤ a.teacher := by
    intro a ha
    rw [parsedCells] at ha
    rcases List.mem_filterMap.mp ha with ⟨k, hk, hka⟩
    rcases parseCellFn_some sub k a hka with ⟨-, -, -, -, h5⟩
    exact idsPositive_spec sub sel timetableDays timetableSlots hpos k hk
      a.subj a.teacher h5
  rw [buildCurrent,
    renderContribs_save sub sel timetableDays timetableSlots db hnodup hposm]
  have hmodels := foldl_place_models
    ((parsedCells sub sel timetableDays timetableSlots).map entryOf)
    (fun _ => []) [] curModels_nil
  rw [hmodels.2 b i hi1 hi3, specFill_eq_fillVals]
  have hvals : valsOf b
      ((parsedCells sub sel timetableDays timetableSlots).map entryOf) =
      ((cellKeysSlot b.cg b.day (b.st, b.et)).filterMap
        (parseCellFn sub)).map (fun a => (a.subj, a.teacher)) := by
    rw [valsOf, List.filter_map, List.map_map]
    have hcomp : ((fun e : BaseKey × (Nat × Nat) => decide (e.1 = b)) ∘
        entryOf) = fun a => decide (abase a = b) := rfl
    rw [hcomp, parsedCells_filter_base sub sel timetableDays timetableSlots b
      hnd (by decide) (by decide) hcg hday hslot]
    rfl
  rw [hvals]
  have hlen : (((cellKeysSlot b.cg b.day (b.st, b.et)).filterMap
      (parseCellFn sub)).map (fun a => (a.subj, a.teacher))).length ≤ 3 := by
    rw [List.length_map]
    calc ((cellKeysSlot b.cg b.day (b.st, b.et)).filterMap
        (parseCellFn sub)).length
        ≤ (cellKeysSlot b.cg b.day (b.st, b.et)).length :=
          List.length_filterMap_le _ _
      _ = 3 := by
          rw [cellKeysSlot, List.length_map]
          rfl
  rw [fillVals_of_short _ [] (by simpa using hlen), List.nil_append]
  have hcells : cellKeysSlot b.cg b.day (b.st, b.et) =
      [cellOf b 1, cellOf b 2, cellOf b 3] := rfl
  rw [hcells]
  have hm : ∀ j, j = 1 ∨ j = 2 ∨ j = 3 → sub (cellOf b j) ≠ .malformed := by
    intro j hj
    refine no_malformed_cell sub sel timetableDays timetableSlots hpe
      (cellOf b j) ?_
    rw [mem_cellKeys]
    exact ⟨hcg, hday, by cases b; exact hslot, hj⟩
  have hpk : ∀ x y, x = 1 ∨ x = 2 ∨ x = 3 → y = 1 ∨ y = 2 ∨ y = 3 →
      x ≤ y → sub (cellOf b y) ≠ .empty → sub (cellOf b x) ≠ .empty := by
    intro x y hx hy hxy hne
    exact hpack b.cg hcg b.day hday (b.st, b.et) hslot x (by simpa using hx)
      y (by simpa using hy) hxy hne
  rcases hc1 : sub (cellOf b 1) with _ | _ | ⟨s1, t1⟩
  · rcases hc2 : sub (cellOf b 2) with _ | _ | ⟨s2, t2⟩
    · rcases hc3 : sub (cellOf b 3) with _ | _ | ⟨s3, t3⟩
      · simp only [List.filterMap_cons, List.filterMap_nil, parseCellFn,
          hc1, hc2, hc3, List.map_nil]
        interval_cases i <;> simp [hc1, hc2, hc3]
      · exact absurd hc3 (hm 3 (by simp))
      · exact absurd hc1
          (by
            refine hpk 1 3 (by simp) (by simp) (by omega) ?_
            rw [hc3]
            simp)
    · exact absurd hc2 (hm 2 (by simp))
    · exact absurd hc1
        (by
          refine hpk 1 2 (by simp) (by simp) (by omega) ?_
          rw [hc2]
          simp)
  · exact absurd hc1 (hm 1 (by simp))
  · rcases hc2 : sub (cellOf b 2) with _ | _ | ⟨s2, t2⟩
    · rcases hc3 : sub (cellOf b 3) with _ | _ | ⟨s3, t3⟩
      · simp only [List.filterMap_cons, List.filterMap_nil, parseCellFn,
          hc1, hc2, hc3, List.map_cons, List.map_nil]
        interval_cases i <;> simp [hc1, hc2, hc3]
      · exact absurd hc3 (hm 3 (by simp))
      · exact absurd hc2
          (by
            refine hpk 2 3 (by simp) (by simp) (by omega) ?_
            rw [hc3]
            simp)
    · exact absurd hc2 (hm 2 (by simp))
    · rcases hc3 : sub (cellOf b 3) with _ | _ | ⟨s3, t3⟩
      · simp only [List.filterMap_cons, List.filterMap_nil, parseCellFn,
          hc1, hc2, hc3, List.map_cons, List.map_nil]
        interval_cases i <;> simp [hc1, hc2, hc3]
      · exact absurd hc3 (hm 3 (by simp))
      · simp only [List.filterMap_cons, List.filterMap_nil, parseCellFn,
          hc1, hc2, hc3, List.map_cons, List.map_nil]
        interval_cases i <;> simp [hc1, hc2, hc3]

/-- C2 (amended): a submission with no teacher-slot clash and valid joint
configuration, read cleanly (no malformed cell), with positive ids, whose
cells are prefix-packed (values at the lowest sub-indices) and carry no
duplicate value inside one cell, is accepted by the normal builder, and the
`current` map rebuilt from the persisted rows — read back in creation
order — reproduces the submitted cell-to-value map exactly, including
sub-index placement. -/
theorem C2_roundtrip_on_packed_cells (db : DB) (rawIds : List SelId)
    (sub : Submission) (cfg : JointConfig)
    (hsel : parseSelected rawIds ≠ [])
    (hnd : (parseSelected rawIds).Nodup)
    (hpe : hasParseError sub (parseSelected rawIds) timetableDays
      timetableSlots = false)
    (hnc : NoClash (parsedCells sub (parseSelected rawIds) timetableDays
      timetableSlots))
    (hjo : JointOK cfg (parsedCells sub (parseSelected rawIds) timetableDays
      timetableSlots))
    (hpos : IdsPositive sub (parseSelected rawIds) timetableDays
      timetableSlots = true)
    (hpack : CellPacked sub (parseSelected rawIds) timetableDays
      timetableSlots)
    (hdist : CellDistinct sub (parseSelected rawIds) timetableDays
      timetableSlots) :
    (timetable_builder db rawIds .save sub cfg).2 = none ∧
    ∀ cg ∈ parseSelected rawIds, ∀ day ∈ timetableDays,
      ∀ sl ∈ timetableSlots, ∀ i, 1 ≤ i → i ≤ 3 →
        lookupCur
          (buildCurrent (timetable_builder db rawIds .save sub cfg).1
            (parseSelected rawIds) timetableDays
            (timetableSlots.map Prod.fst))
          ⟨cg, day, sl.1, sl.2, i⟩ =
        (match sub ⟨cg, day, sl.1, sl.2, i⟩ with
         | .pair s t => some (s, t)
         | _ => none) := by
  have hv : validateSave cfg sub (parseSelected rawIds) timetableDays
      timetableSlots = none :=
    (validateSave_eq_none_iff cfg sub _ _ _).mpr ⟨hpe, hnc, hjo⟩
  have hsave := timetable_builder_save_eq db rawIds sub cfg hsel
  rw [doSave_accepted cfg sub _ _ _ db hv] at hsave
  constructor
  · rw [hsave]
  · intro cg hcg day hday sl hsl i hi1 hi3
    have hstate := congrArg Prod.fst hsave
    rw [hstate]
    exact buildCurrent_lookup_of_accepted sub (parseSelected rawIds) db
      ⟨cg, day, sl.1, sl.2⟩ i hnd hpe hpos hpack hdist hcg hday hsl hi1 hi3

/-- Submission of the C2 counterexample: a single filled cell, placed at
sub-index 2 with sub-index 1 left blank. -/
def subIdx2 : Submission := fun k =>
  if k = ⟨1, "Mon", 480, 520, 2⟩ then .pair 1 1 else .empty

/-- C2 counterexample: a submission meeting all the claim's acceptance
conditions whose only value sits at sub-index 2 is saved successfully, but
the map rebuilt from the persisted rows places the value at sub-index 1
and leaves sub-index 2 empty — it does not equal the submitted map. -/
theorem C2_counterexample :
    (timetable_builder [] [SelId.ok 1] .save subIdx2 cfgNone).2 = none ∧
    subIdx2 ⟨1, "Mon", 480, 520, 2⟩ = .pair 1 1 ∧
    subIdx2 ⟨1, "Mon", 480, 520, 1⟩ = .empty ∧
    lookupCur
      (buildCurrent (timetable_builder [] [SelId.ok 1] .save subIdx2
        cfgNone).1 [1] timetableDays (timetableSlots.map Prod.fst))
      ⟨1, "Mon", 480, 520, 2⟩ = none ∧
    lookupCur
      (buildCurrent (timetable_builder [] [SelId.ok 1] .save subIdx2
        cfgNone).1 [1] timetableDays (timetableSlots.map Prod.fst))
      ⟨1, "Mon", 480, 520, 1⟩ = some (1, 1) := by
  refine ⟨by decide, by decide, by decide, by decide, by decide⟩

theorem C2_witness :
    (timetable_builder [] [SelId.ok 1] .save subC5a cfgNone).2 = none ∧
    lookupCur
      (buildCurrent (timetable_builder [] [SelId.ok 1] .save subC5a
        cfgNone).1 (parseSelected [SelId.ok 1]) timetableDays
        (timetableSlots.map Prod.fst))
      ⟨1, "Mon", 480, 520, 1⟩ =
      (match subC5a ⟨1, "Mon", 480, 520, 1⟩ with
       | .pair s t => some (s, t)
       | _ => none) := by
  have hjo : JointOK cfgNone (parsedCells subC5a
      (parseSelected [SelId.ok 1]) timetableDays timetableSlots) := by
    intro a ha h2
    rw [show parsedCells subC5a (parseSelected [SelId.ok 1]) timetableDays
        timetableSlots = [⟨1, "Mon", 480, 520, 1, 1⟩] from by decide] at ha h2
    simp only [List.mem_singleton] at ha
    subst ha
    rw [show blockClasses [(⟨1, "Mon", 480, 520, 1, 1⟩ : Assign)]
        ⟨1, "Mon", 480, 520, 1, 1⟩ = [1] from by decide] at h2
    simp at h2
  have h := C2_roundtrip_on_packed_cells [] [SelId.ok 1] subC5a cfgNone
    (by decide) (by decide) (by decide) (by decide) hjo (by decide)
    (by decide) (by decide)
  exact ⟨h.1, h.2 1 (by decide) "Mon" (by decide) (480, 520) (by decide) 1
    (by decide) (by decide)⟩

end RemedialSystem
